import Mathlib

/-!
# Leaf-update engine of bdtree (`bdtree/leaf_operations.h`)

A shallow embedding of `insert_operation`, `delete_operation` and
`exec_leaf_operation`, together with theorems about them.

Modelling conventions.

* `std::vector<std::pair<Key, Value>>` is a `List (K × V)`; iterators are indices,
  `end()` is the length of the list.
* `Key` carries a linear order; `key_compare` (declared outside this header) is the
  strict order on keys, applied to the `first` component of an entry.
* `std::lower_bound` and `std::binary_search` are the usual halving loops of the
  standard library.
* `physical_pointer`, `logical_pointer`, versions and sizes are natural numbers.
* `serialize()` is modelled by a structured `payload` (what is serialized) instead of bytes.
* The collaborators of `exec_leaf_operation` (search, split, merge, node table, pointer
  table, cache) live outside this header.  They are fields of an `Env` acting on an
  abstract world `W`; every call the engine makes is recorded in a trace of `Event`s.
* `exec_leaf_operation` need not terminate, so it takes a fuel argument that bounds the
  number of restarts plus loop iterations.
-/

namespace bdtree

/-! ## Data model -/

/-- Identifier of one immutable payload in the physical store. -/
abbrev physical_pointer := Nat

/-- Identifier of one slot of the indirection table. -/
abbrev logical_pointer := Nat

/-- The members of `leaf_node<Key, Value>` that `leaf_operations.h` reads or writes. -/
structure leaf_node (K V : Type) where
  array_ : List (K × V)
  low_key_ : K
  high_key_ : Option K
  leaf_pptr_ : physical_pointer
  deltas_ : List physical_pointer
deriving DecidableEq, Repr

/-- The members of `node_pointer<Key, Value>` used here; `node_` is the leaf it wraps. -/
structure node_pointer (K V : Type) where
  lptr_ : logical_pointer
  ptr_ : physical_pointer
  rc_version_ : Nat
  node_ : leaf_node K V
deriving DecidableEq, Repr

/-- The call `nptr->as_leaf()`. -/
def node_pointer.as_leaf {K V : Type} (nptr : node_pointer K V) : leaf_node K V := nptr.node_

/-- The record `insert_delta<Key, Value>`. -/
structure insert_delta (K V : Type) where
  value : K × V
  next : physical_pointer
deriving DecidableEq, Repr

/-- The record `delete_delta<Key, Value>`. -/
structure delete_delta (K : Type) where
  key : K
  next : physical_pointer
deriving DecidableEq, Repr

/-- What an operation hands to `node_table.insert`: the thing that was serialized. -/
inductive payload (K V : Type) where
  | leaf (ln : leaf_node K V)
  | ins (d : insert_delta K V)
  | del (d : delete_delta K)
deriving DecidableEq, Repr

/-- The constants of `bdtree/config.h` and `null_key<Key>::value()`, which this header uses
but does not define. -/
structure config (K : Type) where
  MAX_NODE_SIZE : Nat
  MIN_NODE_SIZE : Nat
  CONSOLIDATE_AT : Nat
  null_key : K

/-- The error codes `exec_leaf_operation` distinguishes; `ok` is the empty `std::error_code`. -/
inductive error where
  | ok
  | object_doesnt_exist
  | wrong_version
  | other (code : Nat)
deriving DecidableEq, Repr

/-! ## `std::lower_bound`, `std::binary_search` and the vector primitives -/

section algorithms

variable {K V : Type} [LinearOrder K]

/-- The halving loop of `std::lower_bound` on the window `[first, first + len)`; the first
argument bounds the number of iterations. -/
def lower_bound_loop (a : List (K × V)) (key : K) : Nat → Nat → Nat → Nat
  | 0, first, _ => first
  | fuel + 1, first, len =>
    if 0 < len then
      let half := len / 2
      let middle := first + half
      match a[middle]? with
      | some e =>
        if e.1 < key then lower_bound_loop a key fuel (middle + 1) (len - half - 1)
        else lower_bound_loop a key fuel first half
      | none => first
    else first

/-- The call `std::lower_bound(a.begin(), a.end(), key, comp)` as an index into `a`. -/
def lower_bound (a : List (K × V)) (key : K) : Nat :=
  lower_bound_loop a key a.length 0 a.length

/-- The call `std::binary_search(a.begin(), a.end(), key, comp)`:
`i != last && !comp(key, *i)` for `i` the lower bound. -/
def binary_search (a : List (K × V)) (key : K) : Bool :=
  match a[lower_bound a key]? with
  | some e => !decide (key < e.1)
  | none => false

/-- The call `v.insert(v.begin() + i, x)`. -/
def vector_insert {α : Type} (a : List α) (i : Nat) (x : α) : List α :=
  a.take i ++ x :: a.drop i

/-- The call `v.erase(v.begin() + i)`. -/
def vector_erase {α : Type} (a : List α) (i : Nat) : List α :=
  a.eraseIdx i

/-- An array sorted by key (duplicates of a key allowed). -/
def sorted_by_key (a : List (K × V)) : Prop :=
  a.Pairwise (fun x y => x.1 ≤ y.1)

/-- An array with strictly increasing keys. -/
def strictly_sorted (a : List (K × V)) : Prop :=
  a.Pairwise (fun x y => x.1 < y.1)

instance (a : List (K × V)) : Decidable (sorted_by_key a) := by
  unfold sorted_by_key; infer_instance

instance (a : List (K × V)) : Decidable (strictly_sorted a) := by
  unfold strictly_sorted; infer_instance

end algorithms

/-! ## The operations -/

/-- The struct `insert_operation`; `consolidated` is the member of `leaf_operation_base`. -/
structure insert_operation (K V : Type) where
  consolidated : Bool
  key : K
  value : V
deriving DecidableEq, Repr

/-- The struct `delete_operation`; `consolidated` is the member of `leaf_operation_base`. -/
structure delete_operation (K : Type) where
  consolidated : Bool
  key : K
deriving DecidableEq, Repr

section operations

variable {K V : Type} [LinearOrder K] [DecidableEq V]

/-- The constructor `insert_operation(key, value, comp)`. -/
def insert_operation.mk0 (key : K) (value : V) : insert_operation K V :=
  { consolidated := false, key := key, value := value }

/-- The constructor `delete_operation(key, comp)`. -/
def delete_operation.mk0 (key : K) : delete_operation K :=
  { consolidated := false, key := key }

/-- The method `insert_operation::has_conflicts`. -/
def insert_operation.has_conflicts (op : insert_operation K V) (leafp : leaf_node K V) : Bool :=
  binary_search leafp.array_ op.key

/-- The first statement group of `insert_operation::operator()`: what happens to `ln.array_`. -/
def insert_operation.apply_array (op : insert_operation K V) (a : List (K × V)) : List (K × V) :=
  let iter := lower_bound a op.key
  match a[iter]? with
  | none => vector_insert a iter (op.key, op.value)
  | some e =>
    if e.2 ≠ op.value ∨ e.1 ≠ op.key then vector_insert a iter (op.key, op.value)
    else a

/-- The method `insert_operation::operator()`: the payload returned, the leaf `ln` after
the call, and the operation after the call. -/
def insert_operation.call (cfg : config K) (op : insert_operation K V)
    (nptr : node_pointer K V) (ln : leaf_node K V) (pptr : physical_pointer) :
    payload K V × leaf_node K V × insert_operation K V :=
  let ln1 := { ln with array_ := op.apply_array ln.array_ }
  let leafp := nptr.as_leaf
  let deltasize := leafp.deltas_.length
  if deltasize + 1 ≥ cfg.CONSOLIDATE_AT then
    let ln2 := { ln1 with deltas_ := [], leaf_pptr_ := pptr }
    (payload.leaf ln2, ln2, { op with consolidated := true })
  else
    let ins_delta : insert_delta K V := { value := (op.key, op.value), next := nptr.ptr_ }
    let ln2 := { ln1 with deltas_ := pptr :: ln1.deltas_ }
    (payload.ins ins_delta, ln2, { op with consolidated := false })

/-- The method `delete_operation::has_conflicts`. -/
def delete_operation.has_conflicts (op : delete_operation K) (leafp : leaf_node K V) : Bool :=
  !binary_search leafp.array_ op.key

/-- The first statement group of `delete_operation::operator()`: `none` when `iter` is
`end()` or the assertion `iter->first == key` fails, else the array after `erase(iter)`. -/
def delete_operation.apply_array (op : delete_operation K) (a : List (K × V)) :
    Option (List (K × V)) :=
  let iter := lower_bound a op.key
  match a[iter]? with
  | none => none
  | some e => if e.1 = op.key then some (vector_erase a iter) else none

/-- The method `delete_operation::operator()`; `none` when its assertion fails. -/
def delete_operation.call (cfg : config K) (op : delete_operation K)
    (nptr : node_pointer K V) (ln : leaf_node K V) (pptr : physical_pointer) :
    Option (payload K V × leaf_node K V × delete_operation K) :=
  match op.apply_array ln.array_ with
  | none => none
  | some arr =>
    let ln1 := { ln with array_ := arr }
    let leafp := nptr.as_leaf
    if leafp.deltas_.length + 1 ≥ cfg.CONSOLIDATE_AT then
      let ln2 := { ln1 with deltas_ := [], leaf_pptr_ := pptr }
      some (payload.leaf ln2, ln2, { op with consolidated := true })
    else
      let del_delta : delete_delta K := { key := op.key, next := nptr.ptr_ }
      let ln2 := { ln1 with deltas_ := pptr :: ln1.deltas_ }
      some (payload.del del_delta, ln2, { op with consolidated := false })

end operations

/-! ## The collaborators and the trace -/

/-- The collaborators `exec_leaf_operation` calls, none of which is defined in this header.
`W` is the state of everything outside the call (backend tables, cache, other threads);
`C` is the traversal context returned by the search; `tx_id` is a natural number. -/
structure Env (K V W C : Type) where
  lower_node_bound : K → Nat → W → (node_pointer K V × C) × W
  split : node_pointer K V → C → W → W
  merge : node_pointer K V → C → W → W
  serialized_size : leaf_node K V → Nat
  get_next_ptr : C → W → physical_pointer × W
  insert : C → physical_pointer → payload K V → W → W
  remove : C → physical_pointer → W → W
  update : C → logical_pointer → physical_pointer → Nat → W → (Nat × error) × W
  add_entry : node_pointer K V → Nat → W → Bool × W
  invalidate : C → logical_pointer → W → W
  lower_bound_node_with_context : K → C → W → node_pointer K V × W

/-- One call made by `exec_leaf_operation`, with its arguments and, where it has one,
its result. -/
inductive Event (K V : Type) where
  | lower_node_bound (key : K) (tx_id : Nat) (res : node_pointer K V)
  | split (nptr : node_pointer K V)
  | merge (nptr : node_pointer K V)
  | has_conflicts (leafp : leaf_node K V) (res : Bool)
  | get_next_ptr (res : physical_pointer)
  | insert (pptr : physical_pointer) (data : payload K V)
  | update (lptr : logical_pointer) (pptr : physical_pointer) (version : Nat)
      (new_version : Nat) (ec : error)
  | add_entry (nnp : node_pointer K V) (tx_id : Nat) (res : Bool)
  | invalidate (lptr : logical_pointer)
  | remove (pptr : physical_pointer)
  | lower_bound_node_with_context (key : K) (res : node_pointer K V)
deriving DecidableEq, Repr

/-- What the template parameter `Operation` must provide: `has_conflicts`, `operator()`
(which may fail an assertion, and which updates the operation object) and the
`consolidated` flag read by `cleanup`. -/
structure Operation (K V O : Type) where
  has_conflicts : O → leaf_node K V → Bool
  call : O → node_pointer K V → leaf_node K V → physical_pointer →
    Option (payload K V × leaf_node K V × O)
  consolidated : O → Bool

/-- How a call of `exec_leaf_operation` ends. -/
inductive Outcome where
  | returned (b : Bool)
  | thrown (ec : error)
  | assertion_failed
  | out_of_fuel
deriving DecidableEq, Repr

/-- The outcome of a call, the calls it made in order, and the world it leaves. -/
structure Run (K V W : Type) where
  outcome : Outcome
  trace : List (Event K V)
  world : W

/-- How one iteration of the `for (;;)` loop ends: the call is over, or the loop goes round
again with a re-resolved node pointer. -/
inductive Step (K V O : Type) where
  | done (o : Outcome)
  | retry (leaf : node_pointer K V) (op : O)

section engine

variable {K V W C O : Type} [LinearOrder K] [DecidableEq V]

/-- The instance of `Operation` for `insert_operation`. -/
def insert_operation.ops (cfg : config K) : Operation K V (insert_operation K V) where
  has_conflicts := insert_operation.has_conflicts
  call := fun op nptr ln pptr => some (insert_operation.call cfg op nptr ln pptr)
  consolidated := insert_operation.consolidated

/-- The instance of `Operation` for `delete_operation`. -/
def delete_operation.ops (cfg : config K) : Operation K V (delete_operation K) where
  has_conflicts := delete_operation.has_conflicts
  call := delete_operation.call cfg
  consolidated := delete_operation.consolidated

/-- The loop `for (ptr : ptrs) node_table.remove(ptr)`. -/
def remove_all (E : Env K V W C) (ctx : C) : List physical_pointer → W → List (Event K V) × W
  | [], w => ([], w)
  | p :: ps, w =>
    let r := remove_all E ctx ps (E.remove ctx p w)
    (Event.remove p :: r.1, r.2)

/-- The method `leaf_operation_base::cleanup`. -/
def cleanup (E : Env K V W C) (ctx : C) (consolidated : Bool) (ptrs : List physical_pointer)
    (w : W) : List (Event K V) × W :=
  if !consolidated then ([], w) else remove_all E ctx ptrs w

/-- The body of the `for (;;)` loop of `exec_leaf_operation`, lines 140 to 173. -/
def attempt (E : Env K V W C) (I : Operation K V O) (key : K) (tx_id : Nat) (ctx : C)
    (leaf : node_pointer K V) (op : O) (w : W) : Step K V O × List (Event K V) × W :=
  let leafp := leaf.as_leaf
  if I.has_conflicts op leafp then
    (Step.done (Outcome.returned false), [Event.has_conflicts leafp true], w)
  else
    let g := E.get_next_ptr ctx w
    let pptr := g.1
    -- `*lnptr = *leafp`: the clone starts as a copy of the observed leaf
    let lnptr := leafp
    match I.call op leaf lnptr pptr with
    | none =>
      (Step.done Outcome.assertion_failed,
        [Event.has_conflicts leafp false, Event.get_next_ptr pptr], g.2)
    | some (data, ln, op1) =>
      let w2 := E.insert ctx pptr data g.2
      let u := E.update ctx leaf.lptr_ pptr leaf.rc_version_ w2
      let new_version := u.1.1
      let ec := u.1.2
      let head := [Event.has_conflicts leafp false, Event.get_next_ptr pptr,
        Event.insert pptr data, Event.update leaf.lptr_ pptr leaf.rc_version_ new_version ec]
      match ec with
      | error.ok =>
        let nnp : node_pointer K V :=
          { lptr_ := leaf.lptr_, ptr_ := pptr, rc_version_ := new_version, node_ := ln }
        let c := E.add_entry nnp tx_id u.2
        let ptrs := leafp.deltas_ ++ [leafp.leaf_pptr_]
        let r := cleanup E ctx (I.consolidated op1) ptrs c.2
        (Step.done (Outcome.returned true),
          head ++ Event.add_entry nnp tx_id c.1 :: r.1, r.2)
      | error.object_doesnt_exist =>
        let w4 := E.invalidate ctx leaf.lptr_ u.2
        let w5 := E.remove ctx pptr w4
        let l := E.lower_bound_node_with_context key ctx w5
        (Step.retry l.1 op1,
          head ++ [Event.invalidate leaf.lptr_, Event.remove pptr,
            Event.lower_bound_node_with_context key l.1], l.2)
      | error.wrong_version =>
        let w5 := E.remove ctx pptr u.2
        let l := E.lower_bound_node_with_context key ctx w5
        (Step.retry l.1 op1,
          head ++ [Event.remove pptr, Event.lower_bound_node_with_context key l.1], l.2)
      | error.other code =>
        (Step.done (Outcome.thrown (error.other code)), head, u.2)

/-- The `for (;;)` loop of `exec_leaf_operation`; the first argument bounds the number of
iterations. -/
def exec_loop (E : Env K V W C) (I : Operation K V O) (key : K) (tx_id : Nat) (ctx : C) :
    Nat → node_pointer K V → O → W → Run K V W
  | 0, _, _, w => { outcome := Outcome.out_of_fuel, trace := [], world := w }
  | fuel + 1, leaf, op, w =>
    match attempt E I key tx_id ctx leaf op w with
    | (Step.done o, t, w1) => { outcome := o, trace := t, world := w1 }
    | (Step.retry leaf1 op1, t, w1) =>
      let r := exec_loop E I key tx_id ctx fuel leaf1 op1 w1
      { outcome := r.outcome, trace := t ++ r.trace, world := r.world }

/-- The function `exec_leaf_operation`; the first argument bounds the number of restarts
plus loop iterations. -/
def exec_leaf_operation (E : Env K V W C) (I : Operation K V O) (cfg : config K)
    (key : K) (tx_id : Nat) (op : O) : Nat → W → Run K V W
  | 0, w => { outcome := Outcome.out_of_fuel, trace := [], world := w }
  | fuel + 1, w =>
    let leaf := E.lower_node_bound key tx_id w
    let nptr := leaf.1.1
    let nsize := E.serialized_size nptr.as_leaf
    if nsize ≥ cfg.MAX_NODE_SIZE then
      let r := exec_leaf_operation E I cfg key tx_id op fuel (E.split nptr leaf.1.2 leaf.2)
      { outcome := r.outcome
        trace := Event.lower_node_bound key tx_id nptr :: Event.split nptr :: r.trace
        world := r.world }
    else if nsize < cfg.MIN_NODE_SIZE
        ∧ ¬ (nptr.as_leaf.low_key_ = cfg.null_key ∧ nptr.as_leaf.high_key_ = none) then
      let r := exec_leaf_operation E I cfg key tx_id op fuel (E.merge nptr leaf.1.2 leaf.2)
      { outcome := r.outcome
        trace := Event.lower_node_bound key tx_id nptr :: Event.merge nptr :: r.trace
        world := r.world }
    else
      let r := exec_loop E I key tx_id leaf.1.2 fuel nptr op leaf.2
      { outcome := r.outcome
        trace := Event.lower_node_bound key tx_id nptr :: r.trace
        world := r.world }

end engine

/-! ## Concrete instances over natural-number keys and values -/

/-- A leaf with the given entries and delta chain, low key `0`, no high key, base pointer `100`. -/
def demo_leaf (arr : List (Nat × Nat)) (deltas : List physical_pointer) : leaf_node Nat Nat :=
  { array_ := arr, low_key_ := 0, high_key_ := none, leaf_pptr_ := 100, deltas_ := deltas }

/-- The state of the collaborators in the concrete instance: the node pointer the search
resolves to, the next free physical pointer, the answers `ptr_table.update` will give in
order (once they are used up every update succeeds with the next version), the pointers
held by the physical store, and whether the cache accepts an offered entry. -/
structure demo_world where
  leaf : node_pointer Nat Nat
  next_ptr : physical_pointer
  answers : List (Nat × error)
  stored : List physical_pointer
  cache_accepts : Bool
deriving DecidableEq, Repr

/-- A concrete set of collaborators: the size of a leaf is its number of entries, split
keeps the first half of the entries, merge appends two entries. -/
def demo_env : Env Nat Nat demo_world Unit where
  lower_node_bound := fun _ _ w => ((w.leaf, ()), w)
  split := fun _ _ w =>
    { w with leaf := { w.leaf with node_ := { w.leaf.node_ with
        array_ := w.leaf.node_.array_.take (w.leaf.node_.array_.length / 2) } } }
  merge := fun _ _ w =>
    { w with leaf := { w.leaf with node_ := { w.leaf.node_ with
        array_ := w.leaf.node_.array_ ++ [(1000, 0), (1001, 0)] } } }
  serialized_size := fun ln => ln.array_.length
  get_next_ptr := fun _ w => (w.next_ptr, { w with next_ptr := w.next_ptr + 1 })
  insert := fun _ p _ w => { w with stored := p :: w.stored }
  remove := fun _ p w => { w with stored := w.stored.erase p }
  update := fun _ _ _ ver w =>
    match w.answers with
    | [] => ((ver + 1, error.ok), w)
    | r :: rs => (r, { w with answers := rs })
  add_entry := fun _ _ w => (w.cache_accepts, w)
  invalidate := fun _ _ w => w
  lower_bound_node_with_context := fun _ _ w => (w.leaf, w)

/-- A concrete configuration: split at 4 entries, merge below 1 entry, consolidate when the
chain would reach 2, minimum key `0`. -/
def demo_cfg : config Nat :=
  { MAX_NODE_SIZE := 4, MIN_NODE_SIZE := 1, CONSOLIDATE_AT := 2, null_key := 0 }

/-- A world whose search resolves to logical pointer `7`, physical pointer `100`, version `3`
and the given leaf; fresh physical pointers start at `200`. -/
def demo_start (ln : leaf_node Nat Nat) (answers : List (Nat × error)) : demo_world :=
  { leaf := { lptr_ := 7, ptr_ := 100, rc_version_ := 3, node_ := ln }
    next_ptr := 200, answers := answers, stored := [100], cache_accepts := true }

/-- The call `exec_leaf_operation(3, ..., insert_operation(3, 30))` with transaction id `1`
in the concrete instance, on the given leaf and update answers, with fuel `5`. -/
def demo_insert (ln : leaf_node Nat Nat) (answers : List (Nat × error)) :
    Run Nat Nat demo_world :=
  exec_leaf_operation demo_env (insert_operation.ops demo_cfg) demo_cfg 3 1
    (insert_operation.mk0 3 30) 5 (demo_start ln answers)

/-- The call `exec_leaf_operation(3, ..., delete_operation(3))` with transaction id `1` in
the concrete instance, on the given leaf and update answers, with fuel `5`. -/
def demo_delete (ln : leaf_node Nat Nat) (answers : List (Nat × error)) :
    Run Nat Nat demo_world :=
  exec_leaf_operation demo_env (delete_operation.ops demo_cfg) demo_cfg 3 1
    (delete_operation.mk0 3) 5 (demo_start ln answers)

/-! ## Observations on traces -/

section observations

variable {K V : Type}

/-- The error code reported by an `update` event. -/
def Event.update_result : Event K V → Option error
  | Event.update _ _ _ _ ec => some ec
  | _ => none

/-- The error codes reported by the calls of `ptr_table.update` in a trace, in order. -/
def update_results (t : List (Event K V)) : List error :=
  t.filterMap Event.update_result

/-- The pointer written by a `node_table.insert` event. -/
def Event.inserted : Event K V → Option physical_pointer
  | Event.insert p _ => some p
  | _ => none

/-- The pointer deleted by a `node_table.remove` event. -/
def Event.removed : Event K V → Option physical_pointer
  | Event.remove p => some p
  | _ => none

/-- The pointers passed to `node_table.insert` in a trace, in order. -/
def inserted_ptrs (t : List (Event K V)) : List physical_pointer :=
  t.filterMap Event.inserted

/-- The pointers passed to `node_table.remove` in a trace, in order. -/
def removed_ptrs (t : List (Event K V)) : List physical_pointer :=
  t.filterMap Event.removed

/-- The node pointer a resolution event (`lower_node_bound` or
`lower_bound_node_with_context`) returned. -/
def Event.resolved : Event K V → Option (node_pointer K V)
  | Event.lower_node_bound _ _ res => some res
  | Event.lower_bound_node_with_context _ res => some res
  | _ => none

/-- Whether an event is a call into the node table or the pointer table, or a call of
`has_conflicts`. -/
def Event.is_mutation_step : Event K V → Bool
  | Event.has_conflicts _ _ => true
  | Event.get_next_ptr _ => true
  | Event.insert _ _ => true
  | Event.update _ _ _ _ _ => true
  | _ => false

/-- Whether an event belongs to the part of `exec_leaf_operation` before the loop: the
top-level search, split or merge. -/
def Event.is_restart_step : Event K V → Bool
  | Event.lower_node_bound _ _ _ => true
  | Event.split _ => true
  | Event.merge _ => true
  | _ => false

/-- The leaf is a boundary leaf: its low key is the minimum key and it has no high key. -/
def is_boundary (cfg : config K) (ln : leaf_node K V) : Prop :=
  ln.low_key_ = cfg.null_key ∧ ln.high_key_ = none

/-- The calls of an iteration of the loop that ends in a successful update of `nptr`:
conflict check, allocation, speculative write, update, offer to the cache, and the removals
of `cleanup`. -/
def success_trace (tx_id : Nat) (nptr : node_pointer K V) (pptr : physical_pointer)
    (data : payload K V) (ln : leaf_node K V) (consolidated : Bool) (new_version : Nat)
    (accepted : Bool) : List (Event K V) :=
  [Event.has_conflicts nptr.as_leaf false, Event.get_next_ptr pptr, Event.insert pptr data,
    Event.update nptr.lptr_ pptr nptr.rc_version_ new_version error.ok,
    Event.add_entry
      { lptr_ := nptr.lptr_, ptr_ := pptr, rc_version_ := new_version, node_ := ln }
      tx_id accepted]
  ++ (if consolidated then
        (nptr.as_leaf.deltas_ ++ [nptr.as_leaf.leaf_pptr_]).map Event.remove
      else [])

/-- The calls of an iteration of the loop whose update fails with `object_doesnt_exist` or
`wrong_version` and which re-resolves to `leaf1`. -/
def retry_trace (key : K) (nptr : node_pointer K V) (pptr : physical_pointer)
    (data : payload K V) (new_version : Nat) (ec : error) (leaf1 : node_pointer K V) :
    List (Event K V) :=
  [Event.has_conflicts nptr.as_leaf false, Event.get_next_ptr pptr, Event.insert pptr data,
    Event.update nptr.lptr_ pptr nptr.rc_version_ new_version ec]
  ++ (if ec = error.object_doesnt_exist then [Event.invalidate nptr.lptr_] else [])
  ++ [Event.remove pptr, Event.lower_bound_node_with_context key leaf1]

/-- The calls of the last iteration of the loop, by outcome: `nptr` is the node pointer the
iteration works on and `op0` the operation object at its start. -/
def final_shape {O : Type} (I : Operation K V O) (tx_id : Nat) (nptr : node_pointer K V)
    (op0 : O) (tail : List (Event K V)) : Outcome → Prop
  | Outcome.returned false =>
    I.has_conflicts op0 nptr.as_leaf = true ∧ tail = [Event.has_conflicts nptr.as_leaf true]
  | Outcome.returned true =>
    I.has_conflicts op0 nptr.as_leaf = false ∧
    ∃ pptr data ln op1 newv acc, I.call op0 nptr nptr.as_leaf pptr = some (data, ln, op1) ∧
      tail = success_trace tx_id nptr pptr data ln (I.consolidated op1) newv acc
  | Outcome.thrown ec =>
    I.has_conflicts op0 nptr.as_leaf = false ∧
    ∃ pptr data ln op1 newv code, ec = error.other code ∧
      I.call op0 nptr nptr.as_leaf pptr = some (data, ln, op1) ∧
      tail = [Event.has_conflicts nptr.as_leaf false, Event.get_next_ptr pptr,
        Event.insert pptr data,
        Event.update nptr.lptr_ pptr nptr.rc_version_ newv (error.other code)]
  | Outcome.assertion_failed =>
    I.has_conflicts op0 nptr.as_leaf = false ∧
    ∃ pptr, I.call op0 nptr nptr.as_leaf pptr = none ∧
      tail = [Event.has_conflicts nptr.as_leaf false, Event.get_next_ptr pptr]
  | Outcome.out_of_fuel => tail = []

end observations

/-! ## Chains of failed iterations -/

section chains

variable {K V W C O : Type}

/-- The size of the leaf lets the loop start: it is below `MAX_NODE_SIZE`, and it is at least
`MIN_NODE_SIZE` unless the leaf is a boundary leaf. -/
def leaf_in_bounds (E : Env K V W C) (cfg : config K) (ln : leaf_node K V) : Prop :=
  E.serialized_size ln < cfg.MAX_NODE_SIZE ∧
    (cfg.MIN_NODE_SIZE ≤ E.serialized_size ln ∨ is_boundary cfg ln)

/-- What one iteration of the loop whose update failed with `object_doesnt_exist` or
`wrong_version` did: the pointer it allocated, the payload it wrote, the answer of the
update, and the node pointer it re-resolved to. -/
structure failed_attempt (K V : Type) where
  pptr : physical_pointer
  data : payload K V
  new_version : Nat
  ec : error
  next : node_pointer K V

/-- The calls of a sequence of failed iterations that starts on `nptr`; each iteration works
on the node pointer the previous one re-resolved to. -/
def chain_trace (key : K) : node_pointer K V → List (failed_attempt K V) → List (Event K V)
  | _, [] => []
  | nptr, a :: rest =>
    retry_trace key nptr a.pptr a.data a.new_version a.ec a.next ++ chain_trace key a.next rest

/-- The node pointer the loop holds after a sequence of failed iterations that starts on
`nptr`. -/
def chain_last : node_pointer K V → List (failed_attempt K V) → node_pointer K V
  | nptr, [] => nptr
  | _, a :: rest => chain_last a.next rest

/-- The sequence of failed iterations is what the loop does from `nptr` with operation `op`:
in each one `has_conflicts` is false, `operator()` yields the payload that was written, and
the update answers `object_doesnt_exist` or `wrong_version`; `opf` is the operation object
after the last of them. -/
def chain_ok (I : Operation K V O) : node_pointer K V → O → List (failed_attempt K V) → O → Prop
  | _, op, [], opf => opf = op
  | nptr, op, a :: rest, opf =>
    I.has_conflicts op nptr.as_leaf = false ∧
    (a.ec = error.object_doesnt_exist ∨ a.ec = error.wrong_version) ∧
    ∃ ln op1, I.call op nptr nptr.as_leaf a.pptr = some (a.data, ln, op1) ∧
      chain_ok I a.next op1 rest opf

/-- The event with the answer of the cache replaced by `true`. -/
def Event.forget_cache_answer : Event K V → Event K V
  | Event.add_entry nnp tx_id _ => Event.add_entry nnp tx_id true
  | e => e

end chains

/-- The collaborators of `demo_env`, except that the re-resolution after a failed update
finds the leaf grown to four entries, at version `4`. -/
def demo_env_grown : Env Nat Nat demo_world Unit :=
  { demo_env with
    lower_bound_node_with_context := fun _ _ w =>
      ({ w.leaf with
          rc_version_ := 4
          node_ := { w.leaf.node_ with array_ := [(1, 10), (2, 20), (4, 40), (5, 50)] } }, w) }

/-- The call `exec_leaf_operation(3, ..., insert_operation(3, 30))` with transaction id `1`
against `demo_env_grown`, on the given leaf and update answers, with fuel `5`. -/
def demo_insert_grown (ln : leaf_node Nat Nat) (answers : List (Nat × error)) :
    Run Nat Nat demo_world :=
  exec_leaf_operation demo_env_grown (insert_operation.ops demo_cfg) demo_cfg 3 1
    (insert_operation.mk0 3 30) 5 (demo_start ln answers)

/-- The call `exec_leaf_operation(3, ..., delete_operation(3))` with transaction id `1`
against `demo_env_grown`, on the given leaf and update answers, with fuel `5`. -/
def demo_delete_grown (ln : leaf_node Nat Nat) (answers : List (Nat × error)) :
    Run Nat Nat demo_world :=
  exec_leaf_operation demo_env_grown (delete_operation.ops demo_cfg) demo_cfg 3 1
    (delete_operation.mk0 3) 5 (demo_start ln answers)

/-! ## Runs against two caches -/

section cache_observations

variable {K V W O : Type}

/-- The arguments and the answer of a `ptr_table.update` event. -/
def Event.update_call : Event K V →
    Option (logical_pointer × physical_pointer × Nat × Nat × error)
  | Event.update lptr pptr version new_version ec => some (lptr, pptr, version, new_version, ec)
  | _ => none

/-- The calls of `ptr_table.update` in a trace, in order, with arguments and answers. -/
def update_calls (t : List (Event K V)) :
    List (logical_pointer × physical_pointer × Nat × Nat × error) :=
  t.filterMap Event.update_call

/-- Two runs are the same run, or both return true after the same calls followed by a
successful iteration that differs only in the answer of the cache. -/
def runs_agree_mod_cache (I : Operation K V O) (tx_id : Nat) (r1 r2 : Run K V W) : Prop :=
  r2 = r1 ∨
  ∃ pre nptr op0 pptr data ln op1 newv acc1 acc2,
    I.call op0 nptr nptr.as_leaf pptr = some (data, ln, op1) ∧
    r1.outcome = Outcome.returned true ∧ r2.outcome = Outcome.returned true ∧
    r1.trace = pre ++ success_trace tx_id nptr pptr data ln (I.consolidated op1) newv acc1 ∧
    r2.trace = pre ++ success_trace tx_id nptr pptr data ln (I.consolidated op1) newv acc2

end cache_observations

/-! ## Lemmas on the array algorithms -/

section array_lemmas

variable {K V : Type} [LinearOrder K]

theorem sorted_getElem? {a : List (K × V)} (hs : sorted_by_key a) {i j : Nat} {x y : K × V}
    (hi : a[i]? = some x) (hj : a[j]? = some y) (hij : i ≤ j) : x.1 ≤ y.1 := by
  rcases Nat.eq_or_lt_of_le hij with h | h
  · subst h
    rw [hi] at hj
    cases hj
    exact le_refl _
  · obtain ⟨hi1, rfl⟩ := List.getElem?_eq_some.1 hi
    obtain ⟨hj1, rfl⟩ := List.getElem?_eq_some.1 hj
    exact (List.pairwise_iff_getElem.1 hs) i j hi1 hj1 h

theorem lower_bound_loop_spec {a : List (K × V)} (hs : sorted_by_key a) (key : K) :
    ∀ (fuel first len : Nat), len ≤ fuel → first + len ≤ a.length →
      (∀ j e, j < first → a[j]? = some e → e.1 < key) →
      (∀ j e, first + len ≤ j → a[j]? = some e → key ≤ e.1) →
      lower_bound_loop a key fuel first len ≤ a.length ∧
      (∀ j e, j < lower_bound_loop a key fuel first len → a[j]? = some e → e.1 < key) ∧
      (∀ j e, lower_bound_loop a key fuel first len ≤ j → a[j]? = some e → key ≤ e.1) := by
  intro fuel
  induction fuel with
  | zero =>
    intro first len hl hb hL hR
    have h0 : len = 0 := by omega
    subst h0
    simp only [lower_bound_loop]
    exact ⟨by omega, hL, by simpa using hR⟩
  | succ n ih =>
    intro first len hl hb hL hR
    simp only [lower_bound_loop]
    by_cases hpos : 0 < len
    · have hmid : first + len / 2 < a.length := by omega
      have he : a[first + len / 2]? = some a[first + len / 2] := List.getElem?_eq_getElem hmid
      simp only [hpos, if_true, he]
      by_cases hlt : (a[first + len / 2]).1 < key
      · simp only [hlt, if_true]
        apply ih
        · omega
        · omega
        · intro j e hj hje
          exact lt_of_le_of_lt (sorted_getElem? hs hje he (by omega)) hlt
        · intro j e hj hje
          exact hR j e (by omega) hje
      · simp only [hlt, if_false]
        apply ih
        · omega
        · omega
        · exact hL
        · intro j e hj hje
          exact le_trans (not_lt.1 hlt) (sorted_getElem? hs he hje hj)
    · have h0 : len = 0 := by omega
      subst h0
      simp only [lt_irrefl, if_false]
      exact ⟨by omega, hL, by simpa using hR⟩

/-- On an array sorted by key, `lower_bound` is the partition point: every entry before it
has a smaller key and every entry from it on has a key that is not smaller. -/
theorem lower_bound_spec {a : List (K × V)} (hs : sorted_by_key a) (key : K) :
    lower_bound a key ≤ a.length ∧
    (∀ j e, j < lower_bound a key → a[j]? = some e → e.1 < key) ∧
    (∀ j e, lower_bound a key ≤ j → a[j]? = some e → key ≤ e.1) := by
  unfold lower_bound
  apply lower_bound_loop_spec hs key a.length 0 a.length (le_refl _) (by omega)
  · intro j e hj
    omega
  · intro j e hj hje
    have := (List.getElem?_eq_some.1 hje).1
    omega

/-- The partition point of a sorted array is unique. -/
theorem lower_bound_unique {a : List (K × V)} (hs : sorted_by_key a) (key : K) (i : Nat)
    (hi : i ≤ a.length)
    (hL : ∀ j e, j < i → a[j]? = some e → e.1 < key)
    (hR : ∀ j e, i ≤ j → a[j]? = some e → key ≤ e.1) : lower_bound a key = i := by
  obtain ⟨h1, h2, h3⟩ := lower_bound_spec hs key
  rcases Nat.lt_trichotomy (lower_bound a key) i with h | h | h
  · have hlen : lower_bound a key < a.length := by omega
    have he := List.getElem?_eq_getElem hlen
    have := hL _ _ h he
    have := h3 _ _ (le_refl _) he
    exact absurd (lt_of_lt_of_le ‹_ < key› this) (lt_irrefl _)
  · exact h
  · have hlen : i < a.length := by omega
    have he := List.getElem?_eq_getElem hlen
    have := h2 _ _ h he
    have := hR _ _ (le_refl _) he
    exact absurd (lt_of_lt_of_le ‹_ < key› this) (lt_irrefl _)

/-- On an array sorted by key, `binary_search` finds the key exactly when some entry has it. -/
theorem binary_search_iff {a : List (K × V)} (hs : sorted_by_key a) (key : K) :
    binary_search a key = true ↔ ∃ v, (key, v) ∈ a := by
  obtain ⟨h1, h2, h3⟩ := lower_bound_spec hs key
  unfold binary_search
  constructor
  · intro h
    cases he : a[lower_bound a key]? with
    | none => simp [he] at h
    | some e =>
      simp only [he, Bool.not_eq_true', decide_eq_false_iff_not, not_lt] at h
      have hk : e.1 = key := le_antisymm h (h3 _ _ (le_refl _) he)
      refine ⟨e.2, List.mem_iff_getElem?.2 ⟨lower_bound a key, ?_⟩⟩
      rw [he, ← hk]
  · rintro ⟨v, hv⟩
    obtain ⟨j, hj⟩ := List.mem_iff_getElem?.1 hv
    have hjr : lower_bound a key ≤ j := by
      by_contra hc
      exact lt_irrefl key (h2 j _ (by omega) hj)
    have hjl := (List.getElem?_eq_some.1 hj).1
    have hlen : lower_bound a key < a.length := by omega
    have he := List.getElem?_eq_getElem hlen
    simp only [he, Bool.not_eq_true', decide_eq_false_iff_not, not_lt]
    exact sorted_getElem? hs he hj hjr

theorem vector_insert_length {α : Type} (a : List α) (i : Nat) (x : α) (hi : i ≤ a.length) :
    (vector_insert a i x).length = a.length + 1 := by
  simp only [vector_insert, List.length_append, List.length_cons, List.length_take,
    List.length_drop]
  omega

theorem vector_insert_getElem?_lt {α : Type} (a : List α) (i : Nat) (x : α) (j : Nat)
    (hi : i ≤ a.length) (hj : j < i) : (vector_insert a i x)[j]? = a[j]? := by
  unfold vector_insert
  rw [List.getElem?_append_left (by simp only [List.length_take]; omega)]
  exact List.getElem?_take_of_lt hj

theorem vector_insert_getElem?_eq {α : Type} (a : List α) (i : Nat) (x : α)
    (hi : i ≤ a.length) : (vector_insert a i x)[i]? = some x := by
  unfold vector_insert
  rw [List.getElem?_append_right (by simp only [List.length_take]; omega)]
  simp only [List.length_take, Nat.min_eq_left hi, Nat.sub_self, List.getElem?_cons_zero]

theorem vector_insert_getElem?_gt {α : Type} (a : List α) (i : Nat) (x : α) (j : Nat)
    (hi : i ≤ a.length) (hj : i ≤ j) : (vector_insert a i x)[j + 1]? = a[j]? := by
  unfold vector_insert
  rw [List.getElem?_append_right (by simp only [List.length_take]; omega)]
  simp only [List.length_take, Nat.min_eq_left hi]
  have h1 : j + 1 - i = (j - i) + 1 := by omega
  rw [h1, List.getElem?_cons_succ, List.getElem?_drop]
  congr 1
  omega

/-- Inserting an entry with key `key` at the lower bound of `key` keeps the array sorted. -/
theorem sorted_vector_insert {a : List (K × V)} (hs : sorted_by_key a) (key : K) (v : V) :
    sorted_by_key (vector_insert a (lower_bound a key) (key, v)) := by
  obtain ⟨h1, h2, h3⟩ := lower_bound_spec hs key
  have hsplit : sorted_by_key (a.take (lower_bound a key) ++ a.drop (lower_bound a key)) := by
    rw [List.take_append_drop]
    exact hs
  unfold sorted_by_key at hsplit
  rw [List.pairwise_append] at hsplit
  obtain ⟨ht, hd, hc⟩ := hsplit
  unfold sorted_by_key vector_insert
  rw [List.pairwise_append]
  refine ⟨ht, List.pairwise_cons.2 ⟨?_, hd⟩, ?_⟩
  · intro y hy
    obtain ⟨n, hn⟩ := List.mem_iff_getElem?.1 hy
    rw [List.getElem?_drop] at hn
    exact h3 _ _ (Nat.le_add_right _ _) hn
  · intro p hp q hq
    rcases List.mem_cons.1 hq with rfl | hq1
    · obtain ⟨n, hn⟩ := List.mem_iff_getElem?.1 hp
      rw [List.getElem?_take] at hn
      by_cases hlt : n < lower_bound a key
      · rw [if_pos hlt] at hn
        exact le_of_lt (h2 _ _ hlt hn)
      · rw [if_neg hlt] at hn
        cases hn
    · exact hc p hp q hq1

/-- After inserting an entry with key `key` at the lower bound of `key`, the lower bound of
`key` is the same position. -/
theorem lower_bound_vector_insert {a : List (K × V)} (hs : sorted_by_key a) (key : K) (v : V) :
    lower_bound (vector_insert a (lower_bound a key) (key, v)) key = lower_bound a key := by
  obtain ⟨h1, h2, h3⟩ := lower_bound_spec hs key
  apply lower_bound_unique (sorted_vector_insert hs key v)
  · rw [vector_insert_length _ _ _ h1]
    omega
  · intro j e hj hje
    rw [vector_insert_getElem?_lt _ _ _ _ h1 hj] at hje
    exact h2 _ _ hj hje
  · intro j e hj hje
    rcases Nat.eq_or_lt_of_le hj with h | h
    · rw [← h, vector_insert_getElem?_eq _ _ _ h1] at hje
      cases hje
      exact le_refl _
    · obtain ⟨m, rfl⟩ : ∃ m, j = m + 1 := ⟨j - 1, by omega⟩
      rw [vector_insert_getElem?_gt _ _ _ _ h1 (by omega)] at hje
      exact h3 _ _ (by omega) hje

end array_lemmas

/-! ## The array step of insert -/

section insert_array

variable {K V : Type} [LinearOrder K] [DecidableEq V]

theorem apply_array_of_present (op : insert_operation K V) (a : List (K × V))
    (h : a[lower_bound a op.key]? = some (op.key, op.value)) : op.apply_array a = a := by
  simp [insert_operation.apply_array, h]

theorem apply_array_of_not_present (op : insert_operation K V) (a : List (K × V))
    (h : a[lower_bound a op.key]? ≠ some (op.key, op.value)) :
    op.apply_array a = vector_insert a (lower_bound a op.key) (op.key, op.value) := by
  cases he : a[lower_bound a op.key]? with
  | none => simp only [insert_operation.apply_array, he]
  | some e =>
    have hne : e.2 ≠ op.value ∨ e.1 ≠ op.key := by
      by_contra hc
      push_neg at hc
      apply h
      rw [he]
      congr 1
      exact Prod.ext hc.2 hc.1
    simp only [insert_operation.apply_array, he, if_pos hne]

end insert_array

/-! ## Lemmas on the engine -/

section engine_lemmas

variable {K V W C O : Type}

theorem remove_all_trace (E : Env K V W C) (ctx : C) (ptrs : List physical_pointer) (w : W) :
    (remove_all E ctx ptrs w).1 = ptrs.map Event.remove := by
  induction ptrs generalizing w with
  | nil => rfl
  | cons p ps ih => simp only [remove_all, ih, List.map_cons]

theorem cleanup_trace (E : Env K V W C) (ctx : C) (c : Bool) (ptrs : List physical_pointer)
    (w : W) :
    (cleanup E ctx c ptrs w).1 = if c then ptrs.map Event.remove else [] := by
  cases c
  · simp [cleanup]
  · simp [cleanup, remove_all_trace]

/-- The five ways one iteration of the loop can go, each with the calls it makes. -/
theorem attempt_cases (E : Env K V W C) (I : Operation K V O) (key : K) (tx_id : Nat)
    (ctx : C) (leaf : node_pointer K V) (op : O) (w : W) :
    (I.has_conflicts op leaf.as_leaf = true ∧
      attempt E I key tx_id ctx leaf op w
        = (Step.done (Outcome.returned false), [Event.has_conflicts leaf.as_leaf true], w)) ∨
    (I.has_conflicts op leaf.as_leaf = false ∧
      ((∃ pptr w1, I.call op leaf leaf.as_leaf pptr = none ∧
          attempt E I key tx_id ctx leaf op w
            = (Step.done Outcome.assertion_failed,
                [Event.has_conflicts leaf.as_leaf false, Event.get_next_ptr pptr], w1)) ∨
       (∃ pptr data ln op1 newv acc w1, I.call op leaf leaf.as_leaf pptr = some (data, ln, op1) ∧
          attempt E I key tx_id ctx leaf op w
            = (Step.done (Outcome.returned true),
                success_trace tx_id leaf pptr data ln (I.consolidated op1) newv acc, w1)) ∨
       (∃ pptr data ln op1 newv ec leaf1 w1,
          I.call op leaf leaf.as_leaf pptr = some (data, ln, op1) ∧
          (ec = error.object_doesnt_exist ∨ ec = error.wrong_version) ∧
          attempt E I key tx_id ctx leaf op w
            = (Step.retry leaf1 op1, retry_trace key leaf pptr data newv ec leaf1, w1)) ∨
       (∃ pptr data ln op1 newv code w1,
          I.call op leaf leaf.as_leaf pptr = some (data, ln, op1) ∧
          attempt E I key tx_id ctx leaf op w
            = (Step.done (Outcome.thrown (error.other code)),
                [Event.has_conflicts leaf.as_leaf false, Event.get_next_ptr pptr,
                  Event.insert pptr data,
                  Event.update leaf.lptr_ pptr leaf.rc_version_ newv (error.other code)],
                w1)))) := by
  by_cases hc : I.has_conflicts op leaf.as_leaf = true
  · left
    refine ⟨hc, ?_⟩
    simp only [attempt, hc, if_true]
  · right
    have hc0 : I.has_conflicts op leaf.as_leaf = false := by simpa using hc
    refine ⟨hc0, ?_⟩
    cases hcall : I.call op leaf leaf.as_leaf (E.get_next_ptr ctx w).1 with
    | none =>
      left
      refine ⟨(E.get_next_ptr ctx w).1, (attempt E I key tx_id ctx leaf op w).2.2, hcall, ?_⟩
      simp only [attempt, hc0, hcall, Bool.false_eq_true, if_false]
    | some res =>
      obtain ⟨data, ln, op1⟩ := res
      right
      cases hec : (E.update ctx leaf.lptr_ (E.get_next_ptr ctx w).1 leaf.rc_version_
          (E.insert ctx (E.get_next_ptr ctx w).1 data (E.get_next_ptr ctx w).2)).1.2 with
      | ok =>
        left
        refine ⟨(E.get_next_ptr ctx w).1, data, ln, op1,
          (E.update ctx leaf.lptr_ (E.get_next_ptr ctx w).1 leaf.rc_version_
            (E.insert ctx (E.get_next_ptr ctx w).1 data (E.get_next_ptr ctx w).2)).1.1,
          (E.add_entry
            { lptr_ := leaf.lptr_, ptr_ := (E.get_next_ptr ctx w).1,
              rc_version_ := (E.update ctx leaf.lptr_ (E.get_next_ptr ctx w).1
                leaf.rc_version_
                (E.insert ctx (E.get_next_ptr ctx w).1 data (E.get_next_ptr ctx w).2)).1.1,
              node_ := ln } tx_id
            (E.update ctx leaf.lptr_ (E.get_next_ptr ctx w).1 leaf.rc_version_
              (E.insert ctx (E.get_next_ptr ctx w).1 data (E.get_next_ptr ctx w).2)).2).1,
          (attempt E I key tx_id ctx leaf op w).2.2, hcall, ?_⟩
        simp only [attempt, hc0, hcall, hec, Bool.false_eq_true, if_false, success_trace,
          cleanup_trace, List.cons_append, List.nil_append]
      | object_doesnt_exist =>
        right; left
        refine ⟨(E.get_next_ptr ctx w).1, data, ln, op1,
          (E.update ctx leaf.lptr_ (E.get_next_ptr ctx w).1 leaf.rc_version_
            (E.insert ctx (E.get_next_ptr ctx w).1 data (E.get_next_ptr ctx w).2)).1.1,
          error.object_doesnt_exist,
          (attempt E I key tx_id ctx leaf op w).1.casesOn (fun _ => leaf) (fun l _ => l),
          (attempt E I key tx_id ctx leaf op w).2.2, hcall, Or.inl rfl, ?_⟩
        simp only [attempt, hc0, hcall, hec, Bool.false_eq_true, if_false, retry_trace, if_true,
          List.cons_append, List.nil_append]
      | wrong_version =>
        right; left
        refine ⟨(E.get_next_ptr ctx w).1, data, ln, op1,
          (E.update ctx leaf.lptr_ (E.get_next_ptr ctx w).1 leaf.rc_version_
            (E.insert ctx (E.get_next_ptr ctx w).1 data (E.get_next_ptr ctx w).2)).1.1,
          error.wrong_version,
          (attempt E I key tx_id ctx leaf op w).1.casesOn (fun _ => leaf) (fun l _ => l),
          (attempt E I key tx_id ctx leaf op w).2.2, hcall, Or.inr rfl, ?_⟩
        simp only [attempt, hc0, hcall, hec, Bool.false_eq_true, if_false, retry_trace,
          List.cons_append, List.nil_append, reduceCtorEq]
      | other code =>
        right; right
        refine ⟨(E.get_next_ptr ctx w).1, data, ln, op1,
          (E.update ctx leaf.lptr_ (E.get_next_ptr ctx w).1 leaf.rc_version_
            (E.insert ctx (E.get_next_ptr ctx w).1 data (E.get_next_ptr ctx w).2)).1.1,
          code, (attempt E I key tx_id ctx leaf op w).2.2, hcall, ?_⟩
        simp only [attempt, hc0, hcall, hec, Bool.false_eq_true, if_false]

theorem attempt_conflict (E : Env K V W C) (I : Operation K V O) (key : K) (tx_id : Nat)
    (ctx : C) (leaf : node_pointer K V) (op : O) (w : W)
    (h : I.has_conflicts op leaf.as_leaf = true) :
    attempt E I key tx_id ctx leaf op w
      = (Step.done (Outcome.returned false), [Event.has_conflicts leaf.as_leaf true], w) := by
  simp only [attempt, h, if_true]

theorem exec_loop_done (E : Env K V W C) (I : Operation K V O) (key : K) (tx_id : Nat)
    (ctx : C) (fuel : Nat) (leaf : node_pointer K V) (op : O) (w : W) (o : Outcome)
    (t : List (Event K V)) (w1 : W)
    (h : attempt E I key tx_id ctx leaf op w = (Step.done o, t, w1)) :
    exec_loop E I key tx_id ctx (fuel + 1) leaf op w = { outcome := o, trace := t, world := w1 } := by
  simp only [exec_loop, h]

theorem exec_loop_retry (E : Env K V W C) (I : Operation K V O) (key : K) (tx_id : Nat)
    (ctx : C) (fuel : Nat) (leaf : node_pointer K V) (op : O) (w : W)
    (leaf1 : node_pointer K V) (op1 : O) (t : List (Event K V)) (w1 : W)
    (h : attempt E I key tx_id ctx leaf op w = (Step.retry leaf1 op1, t, w1)) :
    exec_loop E I key tx_id ctx (fuel + 1) leaf op w
      = { outcome := (exec_loop E I key tx_id ctx fuel leaf1 op1 w1).outcome
          trace := t ++ (exec_loop E I key tx_id ctx fuel leaf1 op1 w1).trace
          world := (exec_loop E I key tx_id ctx fuel leaf1 op1 w1).world } := by
  simp only [exec_loop, h]

theorem update_results_append (a b : List (Event K V)) :
    update_results (a ++ b) = update_results a ++ update_results b := by
  simp only [update_results, List.filterMap_append]

theorem inserted_ptrs_append (a b : List (Event K V)) :
    inserted_ptrs (a ++ b) = inserted_ptrs a ++ inserted_ptrs b := by
  simp only [inserted_ptrs, List.filterMap_append]

theorem removed_ptrs_append (a b : List (Event K V)) :
    removed_ptrs (a ++ b) = removed_ptrs a ++ removed_ptrs b := by
  simp only [removed_ptrs, List.filterMap_append]

theorem update_results_retry_trace (key : K) (nptr : node_pointer K V) (pptr : physical_pointer)
    (data : payload K V) (newv : Nat) (ec : error) (leaf1 : node_pointer K V) :
    update_results (retry_trace key nptr pptr data newv ec leaf1) = [ec] := by
  by_cases h : ec = error.object_doesnt_exist <;>
    simp [retry_trace, update_results, Event.update_result, h]

theorem inserted_ptrs_retry_trace (key : K) (nptr : node_pointer K V) (pptr : physical_pointer)
    (data : payload K V) (newv : Nat) (ec : error) (leaf1 : node_pointer K V) :
    inserted_ptrs (retry_trace key nptr pptr data newv ec leaf1) = [pptr] := by
  by_cases h : ec = error.object_doesnt_exist <;>
    simp [retry_trace, inserted_ptrs, Event.inserted, h]

theorem removed_ptrs_retry_trace (key : K) (nptr : node_pointer K V) (pptr : physical_pointer)
    (data : payload K V) (newv : Nat) (ec : error) (leaf1 : node_pointer K V) :
    removed_ptrs (retry_trace key nptr pptr data newv ec leaf1) = [pptr] := by
  by_cases h : ec = error.object_doesnt_exist <;>
    simp [retry_trace, removed_ptrs, Event.removed, h]

theorem retry_trace_ends (key : K) (nptr : node_pointer K V) (pptr : physical_pointer)
    (data : payload K V) (newv : Nat) (ec : error) (leaf1 : node_pointer K V) :
    ∃ pre0, retry_trace key nptr pptr data newv ec leaf1
      = pre0 ++ [Event.lower_bound_node_with_context key leaf1] := by
  refine ⟨[Event.has_conflicts nptr.as_leaf false, Event.get_next_ptr pptr,
      Event.insert pptr data, Event.update nptr.lptr_ pptr nptr.rc_version_ newv ec]
    ++ (if ec = error.object_doesnt_exist then [Event.invalidate nptr.lptr_] else [])
    ++ [Event.remove pptr], ?_⟩
  simp only [retry_trace, List.append_assoc, List.cons_append, List.nil_append]

/-- Every run of the loop is a sequence of iterations whose update failed with
`object_doesnt_exist` or `wrong_version` (the calls `pre`), followed by one last iteration
(the calls `tail`) on the node pointer resolved last. -/
theorem exec_loop_shape (E : Env K V W C) (I : Operation K V O) (key : K) (tx_id : Nat)
    (ctx : C) : ∀ (fuel : Nat) (leaf : node_pointer K V) (op : O) (w : W),
    ∃ pre nptr op0 tail,
      (exec_loop E I key tx_id ctx fuel leaf op w).trace = pre ++ tail ∧
      (∀ ec ∈ update_results pre, ec = error.object_doesnt_exist ∨ ec = error.wrong_version) ∧
      inserted_ptrs pre = removed_ptrs pre ∧
      ((pre = [] ∧ nptr = leaf) ∨
        ∃ pre0, pre = pre0 ++ [Event.lower_bound_node_with_context key nptr]) ∧
      final_shape I tx_id nptr op0 tail (exec_loop E I key tx_id ctx fuel leaf op w).outcome := by
  intro fuel
  induction fuel with
  | zero =>
    intro leaf op w
    exact ⟨[], leaf, op, [], rfl, by simp [update_results], rfl, Or.inl ⟨rfl, rfl⟩, rfl⟩
  | succ n ih =>
    intro leaf op w
    rcases attempt_cases E I key tx_id ctx leaf op w with
      ⟨hc, h⟩ | ⟨hc, ⟨pptr, w1, hcall, h⟩ | ⟨pptr, data, ln, op1, newv, acc, w1, hcall, h⟩ |
        ⟨pptr, data, ln, op1, newv, ec, leaf1, w1, hcall, hec, h⟩ |
        ⟨pptr, data, ln, op1, newv, code, w1, hcall, h⟩⟩
    · rw [exec_loop_done E I key tx_id ctx n leaf op w _ _ _ h]
      exact ⟨[], leaf, op, _, rfl, by simp [update_results], rfl, Or.inl ⟨rfl, rfl⟩, hc, rfl⟩
    · rw [exec_loop_done E I key tx_id ctx n leaf op w _ _ _ h]
      exact ⟨[], leaf, op, _, rfl, by simp [update_results], rfl, Or.inl ⟨rfl, rfl⟩, hc,
        pptr, hcall, rfl⟩
    · rw [exec_loop_done E I key tx_id ctx n leaf op w _ _ _ h]
      exact ⟨[], leaf, op, _, rfl, by simp [update_results], rfl, Or.inl ⟨rfl, rfl⟩, hc,
        pptr, data, ln, op1, newv, acc, hcall, rfl⟩
    · rw [exec_loop_retry E I key tx_id ctx n leaf op w _ _ _ _ h]
      obtain ⟨pre, nptr, op0, tail, ht, hu, hir, hlast, hfin⟩ := ih leaf1 op1 w1
      refine ⟨retry_trace key leaf pptr data newv ec leaf1 ++ pre, nptr, op0, tail, ?_, ?_, ?_,
        ?_, hfin⟩
      · simp only [ht, List.append_assoc]
      · intro e he
        rw [update_results_append, update_results_retry_trace] at he
        rcases List.mem_append.1 he with h1 | h1
        · rw [List.mem_singleton.1 h1]
          exact hec
        · exact hu e h1
      · rw [inserted_ptrs_append, removed_ptrs_append, inserted_ptrs_retry_trace,
          removed_ptrs_retry_trace, hir]
      · right
        rcases hlast with ⟨h1, h2⟩ | ⟨pre0, h1⟩
        · subst h1 h2
          simpa using retry_trace_ends key leaf pptr data newv ec nptr
        · exact ⟨retry_trace key leaf pptr data newv ec leaf1 ++ pre0, by
            rw [h1, List.append_assoc]⟩
    · rw [exec_loop_done E I key tx_id ctx n leaf op w _ _ _ h]
      exact ⟨[], leaf, op, _, rfl, by simp [update_results], rfl, Or.inl ⟨rfl, rfl⟩, hc,
        pptr, data, ln, op1, newv, code, rfl, hcall, rfl⟩

theorem success_trace_no_restart (tx_id : Nat) (nptr : node_pointer K V) (pptr : physical_pointer)
    (data : payload K V) (ln : leaf_node K V) (c : Bool) (newv : Nat) (acc : Bool) :
    ∀ e ∈ success_trace tx_id nptr pptr data ln c newv acc, e.is_restart_step = false := by
  intro e he
  unfold success_trace at he
  rcases List.mem_append.1 he with h | h
  · simp only [List.mem_cons, List.mem_singleton, List.not_mem_nil, or_false] at h
    rcases h with rfl | rfl | rfl | rfl | rfl <;> rfl
  · cases c
    · simp at h
    · simp only [if_true, List.mem_map] at h
      obtain ⟨p, _, rfl⟩ := h
      rfl

theorem retry_trace_no_restart (key : K) (nptr : node_pointer K V) (pptr : physical_pointer)
    (data : payload K V) (newv : Nat) (ec : error) (leaf1 : node_pointer K V) :
    ∀ e ∈ retry_trace key nptr pptr data newv ec leaf1, e.is_restart_step = false := by
  intro e he
  unfold retry_trace at he
  by_cases h : ec = error.object_doesnt_exist
  · simp only [h, if_true, List.mem_append, List.mem_cons, List.mem_singleton,
      List.not_mem_nil, or_false, or_assoc] at he
    rcases he with rfl | rfl | rfl | rfl | rfl | rfl | rfl <;> rfl
  · simp only [h, if_false, List.mem_append, List.mem_cons, List.mem_singleton,
      List.not_mem_nil, or_false, or_assoc] at he
    rcases he with rfl | rfl | rfl | rfl | rfl | rfl <;> rfl

/-- The loop never calls the top-level search, split or merge. -/
theorem exec_loop_no_restart (E : Env K V W C) (I : Operation K V O) (key : K) (tx_id : Nat)
    (ctx : C) : ∀ (fuel : Nat) (leaf : node_pointer K V) (op : O) (w : W),
    ∀ e ∈ (exec_loop E I key tx_id ctx fuel leaf op w).trace, e.is_restart_step = false := by
  intro fuel
  induction fuel with
  | zero =>
    intro leaf op w e he
    simp [exec_loop] at he
  | succ n ih =>
    intro leaf op w e he
    rcases attempt_cases E I key tx_id ctx leaf op w with
      ⟨hc, h⟩ | ⟨hc, ⟨pptr, w1, hcall, h⟩ | ⟨pptr, data, ln, op1, newv, acc, w1, hcall, h⟩ |
        ⟨pptr, data, ln, op1, newv, ec, leaf1, w1, hcall, hec, h⟩ |
        ⟨pptr, data, ln, op1, newv, code, w1, hcall, h⟩⟩
    · rw [exec_loop_done E I key tx_id ctx n leaf op w _ _ _ h] at he
      simp only [List.mem_singleton] at he
      subst he
      rfl
    · rw [exec_loop_done E I key tx_id ctx n leaf op w _ _ _ h] at he
      simp only [List.mem_cons, List.mem_singleton, List.not_mem_nil, or_false] at he
      rcases he with rfl | rfl <;> rfl
    · rw [exec_loop_done E I key tx_id ctx n leaf op w _ _ _ h] at he
      exact success_trace_no_restart _ _ _ _ _ _ _ _ e he
    · rw [exec_loop_retry E I key tx_id ctx n leaf op w _ _ _ _ h] at he
      rcases List.mem_append.1 he with h1 | h1
      · exact retry_trace_no_restart _ _ _ _ _ _ _ e h1
      · exact ih _ _ _ e h1
    · rw [exec_loop_done E I key tx_id ctx n leaf op w _ _ _ h] at he
      simp only [List.mem_cons, List.mem_singleton, List.not_mem_nil, or_false] at he
      rcases he with rfl | rfl | rfl | rfl <;> rfl

theorem update_results_map_remove (l : List physical_pointer) :
    update_results (l.map (Event.remove : physical_pointer → Event K V)) = [] := by
  induction l with
  | nil => rfl
  | cons p ps ih =>
    simp [update_results, Event.update_result]

theorem update_results_success_trace (tx_id : Nat) (nptr : node_pointer K V)
    (pptr : physical_pointer) (data : payload K V) (ln : leaf_node K V) (c : Bool) (newv : Nat)
    (acc : Bool) :
    update_results (success_trace tx_id nptr pptr data ln c newv acc) = [error.ok] := by
  unfold success_trace
  rw [update_results_append]
  cases c
  · simp [update_results, Event.update_result]
  · rw [if_pos rfl, update_results_map_remove]
    simp [update_results, Event.update_result]

theorem success_trace_getLast? (tx_id : Nat) (nptr : node_pointer K V)
    (pptr : physical_pointer) (data : payload K V) (ln : leaf_node K V) (c : Bool) (newv : Nat)
    (acc : Bool) (pre : List (Event K V)) :
    ∃ x, (pre ++ success_trace tx_id nptr pptr data ln c newv acc).getLast? = some x ∧
      x.is_mutation_step = false := by
  cases c
  · refine ⟨Event.add_entry
      { lptr_ := nptr.lptr_, ptr_ := pptr, rc_version_ := newv, node_ := ln } tx_id acc, ?_, rfl⟩
    simp [success_trace]
  · refine ⟨Event.remove nptr.as_leaf.leaf_pptr_, ?_, rfl⟩
    have hsplit : pre ++ success_trace tx_id nptr pptr data ln true newv acc
        = (pre ++ [Event.has_conflicts nptr.as_leaf false, Event.get_next_ptr pptr,
            Event.insert pptr data,
            Event.update nptr.lptr_ pptr nptr.rc_version_ newv error.ok,
            Event.add_entry
              { lptr_ := nptr.lptr_, ptr_ := pptr, rc_version_ := newv, node_ := ln }
              tx_id acc]
          ++ nptr.as_leaf.deltas_.map Event.remove)
          ++ [Event.remove nptr.as_leaf.leaf_pptr_] := by
      simp [success_trace]
    rw [hsplit, List.getLast?_concat]

end engine_lemmas

section exec_lemmas

variable {K V W C O : Type} [LinearOrder K]

theorem exec_split (E : Env K V W C) (I : Operation K V O) (cfg : config K)
    (key : K) (tx_id : Nat) (op : O) (fuel : Nat) (w : W)
    (h : E.serialized_size (E.lower_node_bound key tx_id w).1.1.as_leaf ≥ cfg.MAX_NODE_SIZE) :
    exec_leaf_operation E I cfg key tx_id op (fuel + 1) w
      = { outcome := (exec_leaf_operation E I cfg key tx_id op fuel
            (E.split (E.lower_node_bound key tx_id w).1.1 (E.lower_node_bound key tx_id w).1.2
              (E.lower_node_bound key tx_id w).2)).outcome
          trace := Event.lower_node_bound key tx_id (E.lower_node_bound key tx_id w).1.1
            :: Event.split (E.lower_node_bound key tx_id w).1.1
            :: (exec_leaf_operation E I cfg key tx_id op fuel
                (E.split (E.lower_node_bound key tx_id w).1.1
                  (E.lower_node_bound key tx_id w).1.2 (E.lower_node_bound key tx_id w).2)).trace
          world := (exec_leaf_operation E I cfg key tx_id op fuel
            (E.split (E.lower_node_bound key tx_id w).1.1 (E.lower_node_bound key tx_id w).1.2
              (E.lower_node_bound key tx_id w).2)).world } := by
  simp only [exec_leaf_operation, h, if_true]

theorem exec_merge (E : Env K V W C) (I : Operation K V O) (cfg : config K)
    (key : K) (tx_id : Nat) (op : O) (fuel : Nat) (w : W)
    (h1 : ¬ E.serialized_size (E.lower_node_bound key tx_id w).1.1.as_leaf ≥ cfg.MAX_NODE_SIZE)
    (h2 : E.serialized_size (E.lower_node_bound key tx_id w).1.1.as_leaf < cfg.MIN_NODE_SIZE)
    (h3 : ¬ is_boundary cfg (E.lower_node_bound key tx_id w).1.1.as_leaf) :
    exec_leaf_operation E I cfg key tx_id op (fuel + 1) w
      = { outcome := (exec_leaf_operation E I cfg key tx_id op fuel
            (E.merge (E.lower_node_bound key tx_id w).1.1 (E.lower_node_bound key tx_id w).1.2
              (E.lower_node_bound key tx_id w).2)).outcome
          trace := Event.lower_node_bound key tx_id (E.lower_node_bound key tx_id w).1.1
            :: Event.merge (E.lower_node_bound key tx_id w).1.1
            :: (exec_leaf_operation E I cfg key tx_id op fuel
                (E.merge (E.lower_node_bound key tx_id w).1.1
                  (E.lower_node_bound key tx_id w).1.2 (E.lower_node_bound key tx_id w).2)).trace
          world := (exec_leaf_operation E I cfg key tx_id op fuel
            (E.merge (E.lower_node_bound key tx_id w).1.1 (E.lower_node_bound key tx_id w).1.2
              (E.lower_node_bound key tx_id w).2)).world } := by
  unfold is_boundary at h3
  simp only [exec_leaf_operation, h1, if_false, h2, h3, not_false_eq_true, and_self, if_true]

theorem exec_in_bounds (E : Env K V W C) (I : Operation K V O) (cfg : config K)
    (key : K) (tx_id : Nat) (op : O) (fuel : Nat) (w : W)
    (h1 : ¬ E.serialized_size (E.lower_node_bound key tx_id w).1.1.as_leaf ≥ cfg.MAX_NODE_SIZE)
    (h2 : ¬ (E.serialized_size (E.lower_node_bound key tx_id w).1.1.as_leaf < cfg.MIN_NODE_SIZE
      ∧ ¬ is_boundary cfg (E.lower_node_bound key tx_id w).1.1.as_leaf)) :
    exec_leaf_operation E I cfg key tx_id op (fuel + 1) w
      = { outcome := (exec_loop E I key tx_id (E.lower_node_bound key tx_id w).1.2 fuel
            (E.lower_node_bound key tx_id w).1.1 op (E.lower_node_bound key tx_id w).2).outcome
          trace := Event.lower_node_bound key tx_id (E.lower_node_bound key tx_id w).1.1
            :: (exec_loop E I key tx_id (E.lower_node_bound key tx_id w).1.2 fuel
                (E.lower_node_bound key tx_id w).1.1 op (E.lower_node_bound key tx_id w).2).trace
          world := (exec_loop E I key tx_id (E.lower_node_bound key tx_id w).1.2 fuel
            (E.lower_node_bound key tx_id w).1.1 op (E.lower_node_bound key tx_id w).2).world } := by
  unfold is_boundary at h2
  simp only [exec_leaf_operation, h1, if_false, h2]

/-- Every call is a sequence of restarts and failed iterations (the calls `pre`) followed by
one last iteration (the calls `tail`) on the node pointer resolved last. -/
theorem exec_shape (E : Env K V W C) (I : Operation K V O) (cfg : config K) (key : K)
    (tx_id : Nat) (op : O) : ∀ (fuel : Nat) (w : W),
    ∃ pre nptr op0 tail,
      (exec_leaf_operation E I cfg key tx_id op fuel w).trace = pre ++ tail ∧
      (∀ ec ∈ update_results pre, ec = error.object_doesnt_exist ∨ ec = error.wrong_version) ∧
      inserted_ptrs pre = removed_ptrs pre ∧
      ((exec_leaf_operation E I cfg key tx_id op fuel w).outcome ≠ Outcome.out_of_fuel →
        ∃ pre0 e, pre = pre0 ++ [e] ∧ e.resolved = some nptr) ∧
      final_shape I tx_id nptr op0 tail
        (exec_leaf_operation E I cfg key tx_id op fuel w).outcome := by
  intro fuel
  induction fuel with
  | zero =>
    intro w
    exact ⟨[], (E.lower_node_bound key tx_id w).1.1, op, [], rfl, by simp [update_results], rfl,
      fun h => absurd rfl h, rfl⟩
  | succ n ih =>
    intro w
    by_cases h1 : E.serialized_size (E.lower_node_bound key tx_id w).1.1.as_leaf
        ≥ cfg.MAX_NODE_SIZE
    · rw [exec_split E I cfg key tx_id op n w h1]
      obtain ⟨pre, nptr, op0, tail, ht, hu, hir, hlast, hfin⟩ := ih
        (E.split (E.lower_node_bound key tx_id w).1.1 (E.lower_node_bound key tx_id w).1.2
          (E.lower_node_bound key tx_id w).2)
      refine ⟨Event.lower_node_bound key tx_id (E.lower_node_bound key tx_id w).1.1
        :: Event.split (E.lower_node_bound key tx_id w).1.1 :: pre, nptr, op0, tail, ?_, ?_, ?_,
        ?_, hfin⟩
      · simp only [ht, List.cons_append]
      · simpa [update_results, Event.update_result] using hu
      · simpa [inserted_ptrs, removed_ptrs, Event.inserted, Event.removed] using hir
      · intro hne
        obtain ⟨pre0, e, hp, he⟩ := hlast hne
        exact ⟨_ :: _ :: pre0, e, by rw [hp]; rfl, he⟩
    · by_cases h2 : E.serialized_size (E.lower_node_bound key tx_id w).1.1.as_leaf
          < cfg.MIN_NODE_SIZE ∧ ¬ is_boundary cfg (E.lower_node_bound key tx_id w).1.1.as_leaf
      · rw [exec_merge E I cfg key tx_id op n w h1 h2.1 h2.2]
        obtain ⟨pre, nptr, op0, tail, ht, hu, hir, hlast, hfin⟩ := ih
          (E.merge (E.lower_node_bound key tx_id w).1.1 (E.lower_node_bound key tx_id w).1.2
            (E.lower_node_bound key tx_id w).2)
        refine ⟨Event.lower_node_bound key tx_id (E.lower_node_bound key tx_id w).1.1
          :: Event.merge (E.lower_node_bound key tx_id w).1.1 :: pre, nptr, op0, tail, ?_, ?_,
          ?_, ?_, hfin⟩
        · simp only [ht, List.cons_append]
        · simpa [update_results, Event.update_result] using hu
        · simpa [inserted_ptrs, removed_ptrs, Event.inserted, Event.removed] using hir
        · intro hne
          obtain ⟨pre0, e, hp, he⟩ := hlast hne
          exact ⟨_ :: _ :: pre0, e, by rw [hp]; rfl, he⟩
      · rw [exec_in_bounds E I cfg key tx_id op n w h1 h2]
        obtain ⟨pre, nptr, op0, tail, ht, hu, hir, hlast, hfin⟩ :=
          exec_loop_shape E I key tx_id (E.lower_node_bound key tx_id w).1.2 n
            (E.lower_node_bound key tx_id w).1.1 op (E.lower_node_bound key tx_id w).2
        refine ⟨Event.lower_node_bound key tx_id (E.lower_node_bound key tx_id w).1.1 :: pre,
          nptr, op0, tail, ?_, ?_, ?_, ?_, hfin⟩
        · simp only [ht, List.cons_append]
        · simpa [update_results, Event.update_result] using hu
        · simpa [inserted_ptrs, removed_ptrs, Event.inserted, Event.removed] using hir
        · intro _
          rcases hlast with ⟨hp, hn⟩ | ⟨pre0, hp⟩
          · exact ⟨[], _, by rw [hp]; rfl, by rw [hn]; rfl⟩
          · exact ⟨_ :: pre0, Event.lower_bound_node_with_context key nptr, by rw [hp]; rfl,
              rfl⟩

end exec_lemmas

/-! ## Lemmas on the operations inside the engine -/

section call_lemmas

variable {K V W C O : Type} [LinearOrder K]

/-- A merge is only ever invoked on a leaf that is not a boundary leaf. -/
theorem exec_merge_only_off_boundary (E : Env K V W C) (I : Operation K V O) (cfg : config K)
    (key : K) (tx_id : Nat) (op : O) (nptr : node_pointer K V) : ∀ (fuel : Nat) (w : W),
    Event.merge nptr ∈ (exec_leaf_operation E I cfg key tx_id op fuel w).trace →
      ¬ is_boundary cfg nptr.as_leaf := by
  intro fuel
  induction fuel with
  | zero =>
    intro w hm
    simp [exec_leaf_operation] at hm
  | succ n ih =>
    intro w hm
    by_cases h1 : E.serialized_size (E.lower_node_bound key tx_id w).1.1.as_leaf
        ≥ cfg.MAX_NODE_SIZE
    · rw [exec_split E I cfg key tx_id op n w h1] at hm
      simp only [List.mem_cons, reduceCtorEq, false_or] at hm
      exact ih _ hm
    · by_cases h2 : E.serialized_size (E.lower_node_bound key tx_id w).1.1.as_leaf
          < cfg.MIN_NODE_SIZE ∧ ¬ is_boundary cfg (E.lower_node_bound key tx_id w).1.1.as_leaf
      · rw [exec_merge E I cfg key tx_id op n w h1 h2.1 h2.2] at hm
        simp only [List.mem_cons, reduceCtorEq, false_or, Event.merge.injEq] at hm
        rcases hm with hm | hm
        · rw [hm]
          exact h2.2
        · exact ih _ hm
      · rw [exec_in_bounds E I cfg key tx_id op n w h1 h2] at hm
        simp only [List.mem_cons, reduceCtorEq, false_or] at hm
        have := exec_loop_no_restart E I key tx_id _ n _ op _ _ hm
        cases this

/-- What `delete_operation::operator()` decides: it consolidates exactly when the observed
chain length plus one reaches `CONSOLIDATE_AT`; then the leaf has an empty chain and the new
pointer as base and the payload is the whole leaf; otherwise the payload is a delete delta. -/
theorem delete_call_facts (cfg : config K) (op0 op1 : delete_operation K)
    (nptr : node_pointer K V) (ln0 ln : leaf_node K V) (pptr : physical_pointer)
    (data : payload K V)
    (h : (delete_operation.ops cfg).call op0 nptr ln0 pptr = some (data, ln, op1)) :
    (op1.consolidated = true ↔ nptr.as_leaf.deltas_.length + 1 ≥ cfg.CONSOLIDATE_AT) ∧
    (op1.consolidated = true → ln.deltas_ = [] ∧ ln.leaf_pptr_ = pptr ∧ data = payload.leaf ln) ∧
    (op1.consolidated = false → ln.deltas_ = pptr :: ln0.deltas_ ∧
      ln.leaf_pptr_ = ln0.leaf_pptr_ ∧
      data = payload.del { key := op0.key, next := nptr.ptr_ }) := by
  simp only [delete_operation.ops, delete_operation.call] at h
  cases harr : op0.apply_array ln0.array_ with
  | none => simp [harr] at h
  | some arr =>
    simp only [harr] at h
    by_cases hc : nptr.as_leaf.deltas_.length + 1 ≥ cfg.CONSOLIDATE_AT
    · rw [if_pos hc] at h
      simp only [Option.some.injEq, Prod.mk.injEq] at h
      obtain ⟨rfl, rfl, rfl⟩ := h
      simp [hc]
    · rw [if_neg hc] at h
      simp only [Option.some.injEq, Prod.mk.injEq] at h
      obtain ⟨rfl, rfl, rfl⟩ := h
      simp [hc]

variable [DecidableEq V]

/-- What `insert_operation::operator()` decides: it consolidates exactly when the observed
chain length plus one reaches `CONSOLIDATE_AT`; then the leaf has an empty chain and the new
pointer as base and the payload is the whole leaf; otherwise the payload is an insert delta. -/
theorem insert_call_facts (cfg : config K) (op0 op1 : insert_operation K V)
    (nptr : node_pointer K V) (ln0 ln : leaf_node K V) (pptr : physical_pointer)
    (data : payload K V)
    (h : (insert_operation.ops cfg).call op0 nptr ln0 pptr = some (data, ln, op1)) :
    (op1.consolidated = true ↔ nptr.as_leaf.deltas_.length + 1 ≥ cfg.CONSOLIDATE_AT) ∧
    (op1.consolidated = true → ln.deltas_ = [] ∧ ln.leaf_pptr_ = pptr ∧ data = payload.leaf ln) ∧
    (op1.consolidated = false → ln.deltas_ = pptr :: ln0.deltas_ ∧
      ln.leaf_pptr_ = ln0.leaf_pptr_ ∧
      data = payload.ins { value := (op0.key, op0.value), next := nptr.ptr_ }) := by
  simp only [insert_operation.ops, insert_operation.call, Option.some.injEq] at h
  by_cases hc : nptr.as_leaf.deltas_.length + 1 ≥ cfg.CONSOLIDATE_AT
  · rw [if_pos hc] at h
    simp only [Prod.mk.injEq] at h
    obtain ⟨rfl, rfl, rfl⟩ := h
    simp [hc]
  · rw [if_neg hc] at h
    simp only [Prod.mk.injEq] at h
    obtain ⟨rfl, rfl, rfl⟩ := h
    simp [hc]

end call_lemmas

/-! ## Claims about the operations -/

section conflict_claims

variable {K V : Type} [LinearOrder K]

/-- C3 (as the code has it): on a leaf whose array is sorted by key,
`insert_operation::has_conflicts` returns true exactly when the array already holds an entry
with the key of the operation, whatever the value of that entry; it returns false exactly
when the key is absent. -/
theorem C3_insert_has_conflicts_iff_key_present (op : insert_operation K V)
    (leafp : leaf_node K V) (hs : sorted_by_key leafp.array_) :
    op.has_conflicts leafp = true ↔ ∃ v, (op.key, v) ∈ leafp.array_ := by
  unfold insert_operation.has_conflicts
  exact binary_search_iff hs op.key

/-- C3 fails as stated: on the leaf whose array is `[(1, 10)]`, `has_conflicts` of the insert
of `(1, 10)` and of the insert of `(1, 11)` both return true. -/
theorem C3_insert_reports_conflict :
    (insert_operation.mk0 1 10).has_conflicts (demo_leaf [(1, 10)] []) = true ∧
    (insert_operation.mk0 1 11).has_conflicts (demo_leaf [(1, 10)] []) = true := by
  decide

/-- Witness of C3: the leaf `[(1, 10), (5, 50)]` and the insert of `(5, 51)`. -/
theorem C3_insert_has_conflicts_witness :
    sorted_by_key (demo_leaf [(1, 10), (5, 50)] []).array_ ∧
    ((insert_operation.mk0 5 51).has_conflicts (demo_leaf [(1, 10), (5, 50)] []) = true ↔
      ∃ v, ((insert_operation.mk0 5 51).key, v) ∈ (demo_leaf [(1, 10), (5, 50)] []).array_) :=
  ⟨by decide, C3_insert_has_conflicts_iff_key_present _ _ (by decide)⟩

end conflict_claims

section operation_claims

variable {K V : Type} [LinearOrder K] [DecidableEq V]

/-- C6: on an array sorted by key, the array step of `insert_operation::operator()` leaves
the array unchanged when the entry at the lower bound of the key is exactly `(key, value)`;
applying the step twice gives the same array as applying it once; and when the entry is not
there at the start, the two applications together add exactly one entry, `(key, value)`, at
the lower bound of the key. -/
theorem C6_identical_insert_idempotent (op : insert_operation K V) (a : List (K × V))
    (hs : sorted_by_key a) :
    (a[lower_bound a op.key]? = some (op.key, op.value) → op.apply_array a = a) ∧
    op.apply_array (op.apply_array a) = op.apply_array a ∧
    (a[lower_bound a op.key]? ≠ some (op.key, op.value) →
      op.apply_array (op.apply_array a)
        = vector_insert a (lower_bound a op.key) (op.key, op.value) ∧
      (op.apply_array (op.apply_array a)).length = a.length + 1 ∧
      (op.apply_array (op.apply_array a)).count (op.key, op.value)
        = a.count (op.key, op.value) + 1) := by
  have hlen := (lower_bound_spec hs op.key).1
  have hfresh : a[lower_bound a op.key]? ≠ some (op.key, op.value) →
      op.apply_array (op.apply_array a)
        = vector_insert a (lower_bound a op.key) (op.key, op.value) := by
    intro h
    rw [apply_array_of_not_present op a h]
    apply apply_array_of_present
    rw [lower_bound_vector_insert hs, vector_insert_getElem?_eq _ _ _ hlen]
  refine ⟨apply_array_of_present op a, ?_, ?_⟩
  · by_cases h : a[lower_bound a op.key]? = some (op.key, op.value)
    · rw [apply_array_of_present op a h, apply_array_of_present op a h]
    · rw [hfresh h, apply_array_of_not_present op a h]
  · intro h
    refine ⟨hfresh h, ?_, ?_⟩
    · rw [hfresh h, vector_insert_length _ _ _ hlen]
    · rw [hfresh h]
      unfold vector_insert
      rw [List.count_append, List.count_cons_self]
      conv_rhs => rw [← List.take_append_drop (lower_bound a op.key) a, List.count_append]
      omega

/-- Witness of C6: inserting `(3, 30)` twice into `[(1, 10), (5, 50)]`. -/
theorem C6_identical_insert_witness :
    sorted_by_key [(1, 10), (5, 50)] ∧
    (insert_operation.mk0 3 30).apply_array
        ((insert_operation.mk0 3 30).apply_array [(1, 10), (5, 50)])
      = (insert_operation.mk0 3 30).apply_array [(1, 10), (5, 50)] :=
  ⟨by decide, (C6_identical_insert_idempotent _ _ (by decide)).2.1⟩

/-- C7: on an array sorted by key whose entry at the lower bound of the key is `(key, w)`
with `w ≠ value`, the array step of `insert_operation::operator()` yields an array one entry
longer: `(key, value)` is at the lower bound of the key, the old entry `(key, w)` follows it
immediately, the entries before that position are unchanged and the entries from that
position on are shifted by one, in their original order. -/
theorem C7_duplicate_key_insert (op : insert_operation K V) (a : List (K × V)) (w : V)
    (hs : sorted_by_key a) (h : a[lower_bound a op.key]? = some (op.key, w))
    (hw : w ≠ op.value) :
    op.apply_array a
      = a.take (lower_bound a op.key) ++ (op.key, op.value) :: a.drop (lower_bound a op.key) ∧
    (op.apply_array a).length = a.length + 1 ∧
    lower_bound (op.apply_array a) op.key = lower_bound a op.key ∧
    (op.apply_array a)[lower_bound a op.key]? = some (op.key, op.value) ∧
    (op.apply_array a)[lower_bound a op.key + 1]? = some (op.key, w) ∧
    (∀ j, j < lower_bound a op.key → (op.apply_array a)[j]? = a[j]?) ∧
    (∀ j, lower_bound a op.key ≤ j → (op.apply_array a)[j + 1]? = a[j]?) := by
  have hlen := (lower_bound_spec hs op.key).1
  have hne : a[lower_bound a op.key]? ≠ some (op.key, op.value) := by
    rw [h]
    intro hc
    injection hc with hc
    exact hw (congrArg Prod.snd hc)
  rw [apply_array_of_not_present op a hne]
  refine ⟨rfl, vector_insert_length _ _ _ hlen, lower_bound_vector_insert hs _ _,
    vector_insert_getElem?_eq _ _ _ hlen, ?_, ?_, ?_⟩
  · rw [vector_insert_getElem?_gt _ _ _ _ hlen (le_refl _), h]
  · intro j hj
    exact vector_insert_getElem?_lt _ _ _ _ hlen hj
  · intro j hj
    exact vector_insert_getElem?_gt _ _ _ _ hlen hj

/-- Witness of C7: inserting `(3, 31)` into `[(1, 10), (3, 30), (5, 50)]`. -/
theorem C7_duplicate_key_insert_witness :
    sorted_by_key [(1, 10), (3, 30), (5, 50)] ∧
    (insert_operation.mk0 3 31).apply_array [(1, 10), (3, 30), (5, 50)]
      = [(1, 10), (3, 31), (3, 30), (5, 50)] :=
  ⟨by decide,
    (C7_duplicate_key_insert (insert_operation.mk0 3 31) [(1, 10), (3, 30), (5, 50)] 30
      (by decide) (by decide) (by decide)).1.trans (by decide)⟩

end operation_claims

/-! ## Claims about `exec_leaf_operation` -/

section engine_claims

variable {K V W C O : Type} [LinearOrder K]

/-- For every call of `exec_leaf_operation` that returns, the result is true exactly when the
last `ptr_table.update` of the call reported no error, and false exactly when the call ends
with `has_conflicts` returning true on the leaf of the node pointer resolved last; when it
returns false no `ptr_table.update` of the call reported success, and every pointer the call
wrote to the node table it also removed. -/
theorem result_reflects_update_and_conflict (E : Env K V W C) (I : Operation K V O)
    (cfg : config K) (key : K) (tx_id : Nat) (op : O) (fuel : Nat) (w : W) (b : Bool)
    (h : (exec_leaf_operation E I cfg key tx_id op fuel w).outcome = Outcome.returned b) :
    (b = true ↔
      (update_results (exec_leaf_operation E I cfg key tx_id op fuel w).trace).getLast?
        = some error.ok) ∧
    (b = false ↔
      ∃ pre e nptr, (exec_leaf_operation E I cfg key tx_id op fuel w).trace
          = pre ++ [e, Event.has_conflicts nptr.as_leaf true] ∧ e.resolved = some nptr) ∧
    (b = false →
      (∀ ec ∈ update_results (exec_leaf_operation E I cfg key tx_id op fuel w).trace,
        ec ≠ error.ok) ∧
      inserted_ptrs (exec_leaf_operation E I cfg key tx_id op fuel w).trace
        = removed_ptrs (exec_leaf_operation E I cfg key tx_id op fuel w).trace) := by
  obtain ⟨pre, nptr, op0, tail, ht, hu, hir, hlast, hfin⟩ :=
    exec_shape E I cfg key tx_id op fuel w
  rw [h] at hfin hlast
  obtain ⟨pre0, e, hpre, hres⟩ := hlast (by simp)
  cases b
  · obtain ⟨_, htail⟩ := hfin
    have hups : update_results (exec_leaf_operation E I cfg key tx_id op fuel w).trace
        = update_results pre := by
      rw [ht, htail, update_results_append]
      simp [update_results, Event.update_result]
    have hno : ∀ ec ∈ update_results (exec_leaf_operation E I cfg key tx_id op fuel w).trace,
        ec ≠ error.ok := by
      intro ec hec
      rw [hups] at hec
      rcases hu ec hec with h1 | h1 <;> rw [h1] <;> simp
    refine ⟨?_, ?_, fun _ => ⟨hno, ?_⟩⟩
    · constructor
      · intro hc
        cases hc
      · intro hc
        exact absurd rfl (hno _ (List.mem_of_mem_getLast? hc))
    · constructor
      · intro _
        exact ⟨pre0, e, nptr, by rw [ht, htail, hpre, List.append_assoc]; rfl, hres⟩
      · intro _
        rfl
    · rw [ht, htail, inserted_ptrs_append, removed_ptrs_append, hir]
      simp [inserted_ptrs, removed_ptrs, Event.inserted, Event.removed]
  · obtain ⟨_, pptr, data, ln, op1, newv, acc, hcall, htail⟩ := hfin
    refine ⟨?_, ?_, fun hc => by cases hc⟩
    · constructor
      · intro _
        rw [ht, htail, update_results_append, update_results_success_trace,
          List.getLast?_concat]
      · intro _
        rfl
    · constructor
      · intro hc
        cases hc
      · rintro ⟨pre2, e2, nptr2, ht2, _⟩
        obtain ⟨x, hx, hxm⟩ :=
          success_trace_getLast? tx_id nptr pptr data ln (I.consolidated op1) newv acc pre
        rw [← htail, ← ht, ht2] at hx
        have hx2 : (pre2 ++ [e2, Event.has_conflicts nptr2.as_leaf true]).getLast?
            = some (Event.has_conflicts nptr2.as_leaf true) := by
          have : pre2 ++ [e2, Event.has_conflicts nptr2.as_leaf true]
              = (pre2 ++ [e2]) ++ [Event.has_conflicts nptr2.as_leaf true] := by simp
          rw [this, List.getLast?_concat]
        rw [hx2] at hx
        cases hx
        cases hxm

/-- C2: when the leaf resolved by the search has a size within bounds and its array, sorted
by key, holds no entry with the key of a `delete_operation`, `exec_leaf_operation` returns
false after exactly two calls, the search and `has_conflicts`; it calls neither
`get_next_ptr` nor `node_table.insert` nor `ptr_table.update`, and leaves the world as the
search left it. -/
theorem C2_delete_absent_key_not_applied (E : Env K V W C) (cfg : config K) (key : K)
    (tx_id : Nat) (op : delete_operation K) (fuel : Nat) (w : W)
    (hsize : cfg.MIN_NODE_SIZE ≤ E.serialized_size (E.lower_node_bound key tx_id w).1.1.as_leaf ∧
      E.serialized_size (E.lower_node_bound key tx_id w).1.1.as_leaf < cfg.MAX_NODE_SIZE)
    (hs : sorted_by_key (E.lower_node_bound key tx_id w).1.1.as_leaf.array_)
    (habs : ∀ e ∈ (E.lower_node_bound key tx_id w).1.1.as_leaf.array_, e.1 ≠ op.key) :
    (exec_leaf_operation E (delete_operation.ops cfg) cfg key tx_id op (fuel + 2) w).outcome
      = Outcome.returned false ∧
    (exec_leaf_operation E (delete_operation.ops cfg) cfg key tx_id op (fuel + 2) w).trace
      = [Event.lower_node_bound key tx_id (E.lower_node_bound key tx_id w).1.1,
          Event.has_conflicts (E.lower_node_bound key tx_id w).1.1.as_leaf true] ∧
    (exec_leaf_operation E (delete_operation.ops cfg) cfg key tx_id op (fuel + 2) w).world
      = (E.lower_node_bound key tx_id w).2 := by
  have hconf : (delete_operation.ops cfg : Operation K V (delete_operation K)).has_conflicts op
      (E.lower_node_bound key tx_id w).1.1.as_leaf = true := by
    have hb : binary_search (E.lower_node_bound key tx_id w).1.1.as_leaf.array_ op.key
        = false := by
      cases hbs : binary_search (E.lower_node_bound key tx_id w).1.1.as_leaf.array_ op.key
      · rfl
      · obtain ⟨v, hv⟩ := (binary_search_iff hs op.key).1 hbs
        exact absurd rfl (habs _ hv)
    simp [delete_operation.ops, delete_operation.has_conflicts, hb]
  rw [exec_in_bounds E _ cfg key tx_id op (fuel + 1) w (by omega) (by omega),
    exec_loop_done E _ key tx_id _ fuel _ op _ _ _ _
      (attempt_conflict E _ key tx_id _ _ op _ hconf)]
  exact ⟨rfl, rfl, rfl⟩

/-- Witness of C2: deleting key `3` from the leaf `[(1, 10), (5, 50)]`. -/
theorem C2_delete_absent_key_witness :
    (demo_delete (demo_leaf [(1, 10), (5, 50)] []) []).outcome = Outcome.returned false ∧
    (demo_delete (demo_leaf [(1, 10), (5, 50)] []) []).trace
      = [Event.lower_node_bound 3 1 (demo_start (demo_leaf [(1, 10), (5, 50)] []) []).leaf,
          Event.has_conflicts (demo_leaf [(1, 10), (5, 50)] []) true] :=
  ⟨(C2_delete_absent_key_not_applied demo_env demo_cfg 3 1 (delete_operation.mk0 3) 3
      (demo_start (demo_leaf [(1, 10), (5, 50)] []) []) (by decide) (by decide) (by decide)).1,
    (C2_delete_absent_key_not_applied demo_env demo_cfg 3 1 (delete_operation.mk0 3) 3
      (demo_start (demo_leaf [(1, 10), (5, 50)] []) []) (by decide) (by decide) (by decide)).2.1⟩

/-- An update that reports an error other than `object_doesnt_exist` and `wrong_version`
ends the call at once with that error thrown; the last two calls are the speculative
`node_table.insert` and the update, no `node_table.remove` follows, and the call has removed
one pointer fewer than it inserted. -/
theorem fatal_error_ends_call_without_remove (E : Env K V W C) (I : Operation K V O)
    (cfg : config K) (key : K) (tx_id : Nat) (op : O) (fuel : Nat) (w : W) :
    (∀ code, error.other code
        ∈ update_results (exec_leaf_operation E I cfg key tx_id op fuel w).trace →
      (exec_leaf_operation E I cfg key tx_id op fuel w).outcome
        = Outcome.thrown (error.other code)) ∧
    (∀ ec, (exec_leaf_operation E I cfg key tx_id op fuel w).outcome = Outcome.thrown ec →
      ∃ pre lptr pptr data ver newv code, ec = error.other code ∧
        (exec_leaf_operation E I cfg key tx_id op fuel w).trace
          = pre ++ [Event.insert pptr data, Event.update lptr pptr ver newv (error.other code)] ∧
        inserted_ptrs (exec_leaf_operation E I cfg key tx_id op fuel w).trace
          = removed_ptrs (exec_leaf_operation E I cfg key tx_id op fuel w).trace ++ [pptr]) := by
  obtain ⟨pre, nptr, op0, tail, ht, hu, hir, hlast, hfin⟩ :=
    exec_shape E I cfg key tx_id op fuel w
  refine ⟨?_, ?_⟩
  · intro code hin
    rw [ht, update_results_append] at hin
    rcases List.mem_append.1 hin with h1 | h1
    · rcases hu _ h1 with h2 | h2 <;> cases h2
    · cases ho : (exec_leaf_operation E I cfg key tx_id op fuel w).outcome with
      | returned b =>
        rw [ho] at hfin
        cases b
        · rw [hfin.2] at h1
          simp [update_results, Event.update_result] at h1
        · obtain ⟨_, pptr, data, ln, op1, newv, acc, _, htail⟩ := hfin
          rw [htail, update_results_success_trace] at h1
          simp at h1
      | thrown ec =>
        rw [ho] at hfin
        obtain ⟨_, pptr, data, ln, op1, newv, code1, hec, _, htail⟩ := hfin
        rw [htail] at h1
        simp only [update_results, List.filterMap_cons, Event.update_result,
          List.filterMap_nil, List.mem_singleton, error.other.injEq] at h1
        rw [hec, h1]
      | assertion_failed =>
        rw [ho] at hfin
        obtain ⟨_, pptr, _, htail⟩ := hfin
        rw [htail] at h1
        simp [update_results, Event.update_result] at h1
      | out_of_fuel =>
        rw [ho] at hfin
        have htail : tail = [] := hfin
        rw [htail] at h1
        simp [update_results] at h1
  · intro ec ho
    rw [ho] at hfin
    obtain ⟨_, pptr, data, ln, op1, newv, code, hec, _, htail⟩ := hfin
    refine ⟨pre ++ [Event.has_conflicts nptr.as_leaf false, Event.get_next_ptr pptr],
      nptr.lptr_, pptr, data, nptr.rc_version_, newv, code, hec, ?_, ?_⟩
    · rw [ht, htail]
      simp
    · rw [ht, htail, inserted_ptrs_append, removed_ptrs_append, hir]
      simp [inserted_ptrs, removed_ptrs, Event.inserted, Event.removed]

/-- C5 fails on the code: when the update is answered with the error `other 5`, the call
throws that error having written pointer `200` to the node table and removed nothing, so the
node table still holds the speculative pointer `200`. -/
theorem C5_fatal_error_leaks_pointer :
    (demo_insert (demo_leaf [(1, 10), (5, 50)] []) [(0, error.other 5)]).outcome
      = Outcome.thrown (error.other 5) ∧
    inserted_ptrs (demo_insert (demo_leaf [(1, 10), (5, 50)] []) [(0, error.other 5)]).trace
      = [200] ∧
    removed_ptrs (demo_insert (demo_leaf [(1, 10), (5, 50)] []) [(0, error.other 5)]).trace
      = [] ∧
    200 ∈ (demo_insert (demo_leaf [(1, 10), (5, 50)] []) [(0, error.other 5)]).world.stored :=
  ⟨(fatal_error_ends_call_without_remove demo_env (insert_operation.ops demo_cfg) demo_cfg
      3 1 (insert_operation.mk0 3 30) 5
      (demo_start (demo_leaf [(1, 10), (5, 50)] []) [(0, error.other 5)])).1 5 (by decide),
    by decide, by decide, by decide⟩

/-- C8: provided `MIN_NODE_SIZE ≤ MAX_NODE_SIZE`, when the leaf resolved at entry has size at
least `MAX_NODE_SIZE` the first two calls are the search and `split` on that node pointer,
and when it has size below `MIN_NODE_SIZE` and is not a boundary leaf they are the search and
`merge` on it; in both cases everything after these two calls is a complete run of
`exec_leaf_operation` on the world the split or merge left, with the same key, transaction
id and operation, and every such run with fuel left starts with a new `lower_node_bound`. -/
theorem C8_split_merge_first_then_restart (E : Env K V W C) (I : Operation K V O)
    (cfg : config K) (key : K) (tx_id : Nat) (op : O) (fuel : Nat) (w : W)
    (hcfg : cfg.MIN_NODE_SIZE ≤ cfg.MAX_NODE_SIZE) :
    (E.serialized_size (E.lower_node_bound key tx_id w).1.1.as_leaf ≥ cfg.MAX_NODE_SIZE →
      (exec_leaf_operation E I cfg key tx_id op (fuel + 1) w).trace
        = Event.lower_node_bound key tx_id (E.lower_node_bound key tx_id w).1.1
          :: Event.split (E.lower_node_bound key tx_id w).1.1
          :: (exec_leaf_operation E I cfg key tx_id op fuel
              (E.split (E.lower_node_bound key tx_id w).1.1 (E.lower_node_bound key tx_id w).1.2
                (E.lower_node_bound key tx_id w).2)).trace ∧
      (exec_leaf_operation E I cfg key tx_id op (fuel + 1) w).outcome
        = (exec_leaf_operation E I cfg key tx_id op fuel
            (E.split (E.lower_node_bound key tx_id w).1.1 (E.lower_node_bound key tx_id w).1.2
              (E.lower_node_bound key tx_id w).2)).outcome) ∧
    (E.serialized_size (E.lower_node_bound key tx_id w).1.1.as_leaf < cfg.MIN_NODE_SIZE →
      ¬ is_boundary cfg (E.lower_node_bound key tx_id w).1.1.as_leaf →
      (exec_leaf_operation E I cfg key tx_id op (fuel + 1) w).trace
        = Event.lower_node_bound key tx_id (E.lower_node_bound key tx_id w).1.1
          :: Event.merge (E.lower_node_bound key tx_id w).1.1
          :: (exec_leaf_operation E I cfg key tx_id op fuel
              (E.merge (E.lower_node_bound key tx_id w).1.1 (E.lower_node_bound key tx_id w).1.2
                (E.lower_node_bound key tx_id w).2)).trace ∧
      (exec_leaf_operation E I cfg key tx_id op (fuel + 1) w).outcome
        = (exec_leaf_operation E I cfg key tx_id op fuel
            (E.merge (E.lower_node_bound key tx_id w).1.1 (E.lower_node_bound key tx_id w).1.2
              (E.lower_node_bound key tx_id w).2)).outcome) ∧
    (∀ (n : Nat) (w1 : W),
      (exec_leaf_operation E I cfg key tx_id op (n + 1) w1).trace.head?
        = some (Event.lower_node_bound key tx_id (E.lower_node_bound key tx_id w1).1.1)) := by
  refine ⟨?_, ?_, ?_⟩
  · intro h1
    rw [exec_split E I cfg key tx_id op fuel w h1]
    exact ⟨rfl, rfl⟩
  · intro h2 h3
    rw [exec_merge E I cfg key tx_id op fuel w (by omega) h2 h3]
    exact ⟨rfl, rfl⟩
  · intro n w1
    by_cases h1 : E.serialized_size (E.lower_node_bound key tx_id w1).1.1.as_leaf
        ≥ cfg.MAX_NODE_SIZE
    · rw [exec_split E I cfg key tx_id op n w1 h1]
      rfl
    · by_cases h2 : E.serialized_size (E.lower_node_bound key tx_id w1).1.1.as_leaf
          < cfg.MIN_NODE_SIZE ∧ ¬ is_boundary cfg (E.lower_node_bound key tx_id w1).1.1.as_leaf
      · rw [exec_merge E I cfg key tx_id op n w1 h1 h2.1 h2.2]
        rfl
      · rw [exec_in_bounds E I cfg key tx_id op n w1 h1 h2]
        rfl

/-- Witness of C8: a delete on a leaf of four entries (`MAX_NODE_SIZE = 4`) starts with the
search and a split, and an insert on an empty leaf with low key `2` and high key `9`
(`MIN_NODE_SIZE = 1`) starts with the search and a merge. -/
theorem C8_split_merge_witness :
    demo_cfg.MIN_NODE_SIZE ≤ demo_cfg.MAX_NODE_SIZE ∧
    (demo_delete (demo_leaf [(1, 10), (2, 0), (4, 0), (5, 50)] [150]) []).trace.take 2
      = [Event.lower_node_bound 3 1
          (demo_start (demo_leaf [(1, 10), (2, 0), (4, 0), (5, 50)] [150]) []).leaf,
        Event.split (demo_start (demo_leaf [(1, 10), (2, 0), (4, 0), (5, 50)] [150]) []).leaf] ∧
    (demo_insert { demo_leaf [] [] with low_key_ := 2, high_key_ := some 9 } []).trace.take 2
      = [Event.lower_node_bound 3 1
          (demo_start { demo_leaf [] [] with low_key_ := 2, high_key_ := some 9 } []).leaf,
        Event.merge
          (demo_start { demo_leaf [] [] with low_key_ := 2, high_key_ := some 9 } []).leaf] :=
  ⟨by decide,
    congrArg (List.take 2)
      ((C8_split_merge_first_then_restart demo_env (delete_operation.ops demo_cfg) demo_cfg 3 1
        (delete_operation.mk0 3) 4
        (demo_start (demo_leaf [(1, 10), (2, 0), (4, 0), (5, 50)] [150]) [])
        (by decide)).1 (by decide)).1,
    congrArg (List.take 2)
      ((C8_split_merge_first_then_restart demo_env (insert_operation.ops demo_cfg) demo_cfg 3 1
        (insert_operation.mk0 3 30) 4
        (demo_start { demo_leaf [] [] with low_key_ := 2, high_key_ := some 9 } [])
        (by decide)).2.1 (by decide) (fun h => absurd h.1 (by decide))).1⟩

/-- C9: `exec_leaf_operation` never invokes merge on a node pointer whose leaf has low key
`null_key` and no high key, whatever the size of the leaf. -/
theorem C9_boundary_leaf_never_merged (E : Env K V W C) (I : Operation K V O)
    (cfg : config K) (key : K) (tx_id : Nat) (op : O) (fuel : Nat) (w : W)
    (nptr : node_pointer K V) (hb : is_boundary cfg nptr.as_leaf) :
    Event.merge nptr ∉ (exec_leaf_operation E I cfg key tx_id op fuel w).trace :=
  fun hm => exec_merge_only_off_boundary E I cfg key tx_id op nptr fuel w hm hb

/-- Witness of C9: the empty boundary leaf has size `0 < MIN_NODE_SIZE = 1`, and the insert
on it runs without a merge. -/
theorem C9_boundary_leaf_witness :
    is_boundary demo_cfg (demo_start (demo_leaf [] []) []).leaf.as_leaf ∧
    demo_env.serialized_size (demo_start (demo_leaf [] []) []).leaf.as_leaf
      < demo_cfg.MIN_NODE_SIZE ∧
    Event.merge (demo_start (demo_leaf [] []) []).leaf
      ∉ (demo_insert (demo_leaf [] []) []).trace ∧
    (demo_insert (demo_leaf [] []) []).outcome = Outcome.returned true :=
  ⟨⟨rfl, rfl⟩, by decide,
    C9_boundary_leaf_never_merged demo_env (insert_operation.ops demo_cfg) demo_cfg 3 1
      (insert_operation.mk0 3 30) 5 (demo_start (demo_leaf [] []) [])
      (demo_start (demo_leaf [] []) []).leaf ⟨rfl, rfl⟩,
    by decide⟩

end engine_claims

/-! ## Lemmas on the array step of delete and on strictly sorted arrays -/

section delete_array

variable {K V : Type} [LinearOrder K]

theorem strictly_sorted_sorted {a : List (K × V)} (hss : strictly_sorted a) : sorted_by_key a :=
  List.Pairwise.imp (fun h => le_of_lt h) hss

theorem strictly_sorted_getElem? {a : List (K × V)} (hss : strictly_sorted a) {i j : Nat}
    {x y : K × V} (hi : a[i]? = some x) (hj : a[j]? = some y) (hij : i < j) : x.1 < y.1 := by
  obtain ⟨hi1, rfl⟩ := List.getElem?_eq_some.1 hi
  obtain ⟨hj1, rfl⟩ := List.getElem?_eq_some.1 hj
  exact (List.pairwise_iff_getElem.1 hss) i j hi1 hj1 hij

/-- On a sorted array in which `binary_search` finds the key, the entry at the lower bound
exists and has the key. -/
theorem lower_bound_entry_of_found {a : List (K × V)} (hs : sorted_by_key a) (key : K)
    (hb : binary_search a key = true) :
    ∃ e, a[lower_bound a key]? = some e ∧ e.1 = key := by
  obtain ⟨_, _, h3⟩ := lower_bound_spec hs key
  unfold binary_search at hb
  cases he : a[lower_bound a key]? with
  | none => simp [he] at hb
  | some e =>
    simp only [he, Bool.not_eq_true', decide_eq_false_iff_not, not_lt] at hb
    exact ⟨e, rfl, le_antisymm hb (h3 _ _ (le_refl _) he)⟩

theorem delete_apply_array_of_entry (op : delete_operation K) (a : List (K × V)) (e : K × V)
    (he : a[lower_bound a op.key]? = some e) (hk : e.1 = op.key) :
    op.apply_array a = some (vector_erase a (lower_bound a op.key)) := by
  simp only [delete_operation.apply_array, he, hk, if_true]

/-- Erasing the entry at the lower bound of `key` from a strictly sorted array that holds
`key` there leaves no entry with `key`. -/
theorem key_absent_after_erase {a : List (K × V)} (hss : strictly_sorted a) (key : K)
    (e : K × V) (he : a[lower_bound a key]? = some e) (hk : e.1 = key) :
    ∀ x ∈ vector_erase a (lower_bound a key), x.1 ≠ key := by
  obtain ⟨_, h2, _⟩ := lower_bound_spec (strictly_sorted_sorted hss) key
  intro x hx
  obtain ⟨j, hj⟩ := List.mem_iff_getElem?.1 hx
  unfold vector_erase at hj
  rw [List.getElem?_eraseIdx] at hj
  by_cases hlt : j < lower_bound a key
  · rw [if_pos hlt] at hj
    exact ne_of_lt (h2 _ _ hlt hj)
  · rw [if_neg hlt] at hj
    have := strictly_sorted_getElem? hss he hj (by omega)
    rw [hk] at this
    exact ne_of_gt this

/-- Inserting an entry with a key the strictly sorted array does not hold, at the lower bound
of that key, keeps the keys strictly increasing. -/
theorem strictly_sorted_vector_insert {a : List (K × V)} (hss : strictly_sorted a) (key : K)
    (v : V) (habs : ∀ x ∈ a, x.1 ≠ key) :
    strictly_sorted (vector_insert a (lower_bound a key) (key, v)) := by
  obtain ⟨h1, h2, h3⟩ := lower_bound_spec (strictly_sorted_sorted hss) key
  have hsplit : strictly_sorted (a.take (lower_bound a key) ++ a.drop (lower_bound a key)) := by
    rw [List.take_append_drop]
    exact hss
  unfold strictly_sorted at hsplit
  rw [List.pairwise_append] at hsplit
  obtain ⟨ht, hd, hc⟩ := hsplit
  unfold strictly_sorted vector_insert
  rw [List.pairwise_append]
  refine ⟨ht, List.pairwise_cons.2 ⟨?_, hd⟩, ?_⟩
  · intro y hy
    obtain ⟨n, hn⟩ := List.mem_iff_getElem?.1 hy
    rw [List.getElem?_drop] at hn
    exact lt_of_le_of_ne (h3 _ _ (Nat.le_add_right _ _) hn)
      (fun hc2 => habs y (List.mem_of_mem_drop hy) hc2.symm)
  · intro p hp q hq
    rcases List.mem_cons.1 hq with rfl | hq1
    · obtain ⟨n, hn⟩ := List.mem_iff_getElem?.1 hp
      rw [List.getElem?_take] at hn
      by_cases hlt : n < lower_bound a key
      · rw [if_pos hlt] at hn
        exact h2 _ _ hlt hn
      · rw [if_neg hlt] at hn
        cases hn
    · exact hc p hp q hq1

end delete_array

/-! ## Further claims about the operations -/

section delete_claims

variable {K V : Type} [LinearOrder K]

/-- C16: on a leaf whose array is sorted by key, when `delete_operation::has_conflicts`
returns false the lower bound of the key is a position inside the array and the entry there
has exactly that key; so in the apply step the assertion `iter->first == key` holds, the
`erase` is in range, and `operator()` produces a result. -/
theorem C16_delete_assertion_holds (cfg : config K) (op : delete_operation K)
    (leafp : leaf_node K V) (hs : sorted_by_key leafp.array_)
    (hc : op.has_conflicts leafp = false) :
    lower_bound leafp.array_ op.key < leafp.array_.length ∧
    (∃ e, leafp.array_[lower_bound leafp.array_ op.key]? = some e ∧ e.1 = op.key) ∧
    op.apply_array leafp.array_
      = some (vector_erase leafp.array_ (lower_bound leafp.array_ op.key)) ∧
    (∀ (nptr : node_pointer K V) (pptr : physical_pointer),
      (delete_operation.call cfg op nptr leafp pptr).isSome = true) := by
  have hb : binary_search leafp.array_ op.key = true := by
    simpa [delete_operation.has_conflicts] using hc
  obtain ⟨e, he, hk⟩ := lower_bound_entry_of_found hs op.key hb
  have happ := delete_apply_array_of_entry op leafp.array_ e he hk
  refine ⟨(List.getElem?_eq_some.1 he).1, ⟨e, he, hk⟩, happ, ?_⟩
  intro nptr pptr
  simp only [delete_operation.call, happ]
  split_ifs <;> rfl

/-- Witness of C16: deleting key `3` from `[(1, 10), (3, 30), (5, 50)]`. -/
theorem C16_delete_assertion_witness :
    sorted_by_key (demo_leaf [(1, 10), (3, 30), (5, 50)] []).array_ ∧
    (delete_operation.mk0 3).has_conflicts (demo_leaf [(1, 10), (3, 30), (5, 50)] []) = false ∧
    (delete_operation.mk0 3).apply_array (demo_leaf [(1, 10), (3, 30), (5, 50)] []).array_
      = some [(1, 10), (5, 50)] :=
  ⟨by decide, by decide,
    (C16_delete_assertion_holds demo_cfg (delete_operation.mk0 3)
      (demo_leaf [(1, 10), (3, 30), (5, 50)] []) (by decide) (by decide)).2.2.1.trans
      (by decide)⟩

/-- C20: on an array sorted by key that holds the key, the array step of delete succeeds and
removes the entry at the lower bound of the key, which is the first entry with that key: the
entries before it are unchanged, the entries after it move up by one in their original
order, and the length decreases by one.  When the keys are strictly increasing no entry of
the result has the key, and `has_conflicts` of the same delete on any leaf with the resulting
array returns true. -/
theorem C20_delete_removes_first_entry (op : delete_operation K) (a : List (K × V))
    (hs : sorted_by_key a) (hk : ∃ e ∈ a, e.1 = op.key) :
    ∃ e b, a[lower_bound a op.key]? = some e ∧ e.1 = op.key ∧
      (∀ j x, j < lower_bound a op.key → a[j]? = some x → x.1 ≠ op.key) ∧
      op.apply_array a = some b ∧
      b = a.take (lower_bound a op.key) ++ a.drop (lower_bound a op.key + 1) ∧
      b.length + 1 = a.length ∧
      (∀ j, j < lower_bound a op.key → b[j]? = a[j]?) ∧
      (∀ j, lower_bound a op.key ≤ j → b[j]? = a[j + 1]?) ∧
      (strictly_sorted a →
        (∀ x ∈ b, x.1 ≠ op.key) ∧
        ∀ leafp : leaf_node K V, leafp.array_ = b → op.has_conflicts leafp = true) := by
  obtain ⟨x, hx, hxk⟩ := hk
  have hb : binary_search a op.key = true :=
    (binary_search_iff hs op.key).2 ⟨x.2, by rw [← hxk]; exact hx⟩
  obtain ⟨e, he, hek⟩ := lower_bound_entry_of_found hs op.key hb
  obtain ⟨_, h2, _⟩ := lower_bound_spec hs op.key
  have hlt := (List.getElem?_eq_some.1 he).1
  refine ⟨e, vector_erase a (lower_bound a op.key), he, hek, ?_,
    delete_apply_array_of_entry op a e he hek, List.eraseIdx_eq_take_drop_succ _ _,
    List.length_eraseIdx_add_one hlt, ?_, ?_, ?_⟩
  · intro j y hj hy
    exact ne_of_lt (h2 j y hj hy)
  · intro j hj
    unfold vector_erase
    rw [List.getElem?_eraseIdx, if_pos hj]
  · intro j hj
    unfold vector_erase
    rw [List.getElem?_eraseIdx, if_neg (by omega)]
  · intro hss
    have habs := key_absent_after_erase hss op.key e he hek
    refine ⟨habs, ?_⟩
    intro leafp hl
    have hsb : sorted_by_key (vector_erase a (lower_bound a op.key)) :=
      List.Pairwise.sublist (List.eraseIdx_sublist _ _) hs
    cases hbs : binary_search (vector_erase a (lower_bound a op.key)) op.key
    · simp [delete_operation.has_conflicts, hl, hbs]
    · obtain ⟨v, hv⟩ := (binary_search_iff hsb op.key).1 hbs
      exact absurd rfl (habs _ hv)

/-- Witness of C20: deleting key `3` from `[(1, 10), (3, 30), (5, 50)]` gives
`[(1, 10), (5, 50)]`. -/
theorem C20_delete_removes_witness :
    sorted_by_key [(1, 10), (3, 30), (5, 50)] ∧
    (∃ e ∈ [(1, 10), (3, 30), (5, 50)], e.1 = (delete_operation.mk0 3).key) ∧
    ∃ e b, [(1, 10), (3, 30), (5, 50)][lower_bound [(1, 10), (3, 30), (5, 50)] 3]? = some e ∧
      (delete_operation.mk0 3).apply_array [(1, 10), (3, 30), (5, 50)] = some b ∧
      b.length + 1 = [(1, 10), (3, 30), (5, 50)].length :=
  ⟨by decide, by decide,
    (C20_delete_removes_first_entry (delete_operation.mk0 3) [(1, 10), (3, 30), (5, 50)]
      (by decide) (by decide)).imp fun _ h => h.imp fun _ h2 =>
        ⟨h2.1, h2.2.2.2.1, h2.2.2.2.2.2.1⟩⟩

end delete_claims

section apply_claims

variable {K V : Type} [LinearOrder K] [DecidableEq V]

/-- C11: `insert_operation::operator()` and `delete_operation::operator()`, applied to a
clone `ln0` with the observed node pointer `nptr`, set `consolidated` to true exactly when the
observed chain length plus one is at least `CONSOLIDATE_AT`.  In that case the clone ends
with an empty chain and the new pointer as base pointer and the payload is the whole leaf.
Otherwise `consolidated` is false, the base pointer of the clone is unchanged, its chain is
the new pointer followed by its old chain, and the payload is a delta that carries the key
(and the value, for insert) with `next` equal to `nptr->ptr_`. -/
theorem C11_consolidate_or_delta (cfg : config K) (nptr : node_pointer K V)
    (ln0 : leaf_node K V) (pptr : physical_pointer) :
    (∀ op : insert_operation K V,
      ((insert_operation.call cfg op nptr ln0 pptr).2.2.consolidated = true ↔
        nptr.as_leaf.deltas_.length + 1 ≥ cfg.CONSOLIDATE_AT) ∧
      ((insert_operation.call cfg op nptr ln0 pptr).2.2.consolidated = true →
        (insert_operation.call cfg op nptr ln0 pptr).2.1.deltas_ = [] ∧
        (insert_operation.call cfg op nptr ln0 pptr).2.1.leaf_pptr_ = pptr ∧
        (insert_operation.call cfg op nptr ln0 pptr).1
          = payload.leaf (insert_operation.call cfg op nptr ln0 pptr).2.1) ∧
      ((insert_operation.call cfg op nptr ln0 pptr).2.2.consolidated = false →
        (insert_operation.call cfg op nptr ln0 pptr).2.1.deltas_ = pptr :: ln0.deltas_ ∧
        (insert_operation.call cfg op nptr ln0 pptr).2.1.leaf_pptr_ = ln0.leaf_pptr_ ∧
        (insert_operation.call cfg op nptr ln0 pptr).1
          = payload.ins { value := (op.key, op.value), next := nptr.ptr_ })) ∧
    (∀ (op op1 : delete_operation K) (data : payload K V) (ln : leaf_node K V),
      delete_operation.call cfg op nptr ln0 pptr = some (data, ln, op1) →
      (op1.consolidated = true ↔ nptr.as_leaf.deltas_.length + 1 ≥ cfg.CONSOLIDATE_AT) ∧
      (op1.consolidated = true →
        ln.deltas_ = [] ∧ ln.leaf_pptr_ = pptr ∧ data = payload.leaf ln) ∧
      (op1.consolidated = false →
        ln.deltas_ = pptr :: ln0.deltas_ ∧ ln.leaf_pptr_ = ln0.leaf_pptr_ ∧
        data = payload.del { key := op.key, next := nptr.ptr_ })) := by
  constructor
  · intro op
    exact insert_call_facts cfg op _ nptr ln0 _ pptr _ rfl
  · intro op op1 data ln h
    exact delete_call_facts cfg op op1 nptr ln0 ln pptr data h

/-- Witness of C11: a delete of key `3` on a leaf with an empty chain (`CONSOLIDATE_AT = 2`)
emits a delete delta whose `next` is the observed physical pointer `100` and pushes the new
pointer `200` on the chain. -/
theorem C11_consolidate_or_delta_witness :
    delete_operation.call demo_cfg (delete_operation.mk0 3)
        (demo_start (demo_leaf [(1, 10), (3, 30)] []) []).leaf
        (demo_leaf [(1, 10), (3, 30)] []) 200
      = some (payload.del { key := 3, next := 100 },
          { demo_leaf [(1, 10)] [200] with leaf_pptr_ := 100 },
          { consolidated := false, key := 3 }) ∧
    ({ consolidated := false, key := 3 } : delete_operation Nat).consolidated = false ∧
    (demo_leaf [(1, 10)] [200]).deltas_ = 200 :: (demo_leaf [(1, 10), (3, 30)] []).deltas_ :=
  ⟨by decide, rfl,
    (((C11_consolidate_or_delta demo_cfg
        (demo_start (demo_leaf [(1, 10), (3, 30)] []) []).leaf
        (demo_leaf [(1, 10), (3, 30)] []) 200).2
      (delete_operation.mk0 3) { consolidated := false, key := 3 }
      (payload.del { key := 3, next := 100 })
      { demo_leaf [(1, 10)] [200] with leaf_pptr_ := 100 } (by decide)).2.2 rfl).1⟩

/-- The array steps on a leaf with strictly increasing keys after `has_conflicts` returned
false: insert places `(key, value)` at the lower bound of the key and keeps the keys strictly
increasing, and the entry at the lower bound never has the key; delete erases one entry and
keeps the keys strictly increasing. -/
theorem apply_array_of_no_conflict (leafp : leaf_node K V)
    (hss : strictly_sorted leafp.array_) :
    (∀ op : insert_operation K V, op.has_conflicts leafp = false →
      strictly_sorted (op.apply_array leafp.array_) ∧
      op.apply_array leafp.array_
        = vector_insert leafp.array_ (lower_bound leafp.array_ op.key) (op.key, op.value) ∧
      (op.apply_array leafp.array_).Perm ((op.key, op.value) :: leafp.array_) ∧
      (∀ e, leafp.array_[lower_bound leafp.array_ op.key]? = some e → e.1 ≠ op.key)) ∧
    (∀ op : delete_operation K, op.has_conflicts leafp = false →
      ∃ b, op.apply_array leafp.array_ = some b ∧ strictly_sorted b) := by
  have hs := strictly_sorted_sorted hss
  constructor
  · intro op hc
    have habs : ∀ x ∈ leafp.array_, x.1 ≠ op.key := by
      intro x hx hk
      have hb : binary_search leafp.array_ op.key = true :=
        (binary_search_iff hs op.key).2 ⟨x.2, by rw [← hk]; exact hx⟩
      rw [insert_operation.has_conflicts, hb] at hc
      cases hc
    have hentry : ∀ e, leafp.array_[lower_bound leafp.array_ op.key]? = some e →
        e.1 ≠ op.key :=
      fun e he => habs e (List.mem_iff_getElem?.2 ⟨_, he⟩)
    have hne : leafp.array_[lower_bound leafp.array_ op.key]? ≠ some (op.key, op.value) :=
      fun he => hentry _ he rfl
    have happ := apply_array_of_not_present op leafp.array_ hne
    refine ⟨?_, happ, ?_, hentry⟩
    · rw [happ]
      exact strictly_sorted_vector_insert hss op.key op.value habs
    · rw [happ]
      unfold vector_insert
      refine List.perm_middle.trans ?_
      rw [List.take_append_drop]
  · intro op hc
    have hb : binary_search leafp.array_ op.key = true := by
      simpa [delete_operation.has_conflicts] using hc
    obtain ⟨e, he, hk⟩ := lower_bound_entry_of_found hs op.key hb
    exact ⟨_, delete_apply_array_of_entry op leafp.array_ e he hk,
      List.Pairwise.sublist (List.eraseIdx_sublist _ _) hss⟩

/-- C17: when `CONSOLIDATE_AT ≥ 1`, the apply step of `insert_operation` and of
`delete_operation` on a clone of the observed leaf leaves a chain of length `0` when the
observed length plus one reaches `CONSOLIDATE_AT` and of the observed length plus one
otherwise, hence of length at most `CONSOLIDATE_AT - 1` (whatever the observed length); and
in every call of `exec_leaf_operation` with an insert or a delete that returns true, the leaf
offered to the cache after the successful update has a chain shorter than `CONSOLIDATE_AT`. -/
theorem C17_chain_stays_below_threshold {W C : Type} (E : Env K V W C) (cfg : config K)
    (key : K) (tx_id : Nat) (iop : insert_operation K V) (dop : delete_operation K)
    (fuel : Nat) (w : W) (hca : 1 ≤ cfg.CONSOLIDATE_AT) :
    (∀ (op : insert_operation K V) (nptr : node_pointer K V) (pptr : physical_pointer),
      (insert_operation.call cfg op nptr nptr.as_leaf pptr).2.1.deltas_.length
        = (if nptr.as_leaf.deltas_.length + 1 ≥ cfg.CONSOLIDATE_AT then 0
            else nptr.as_leaf.deltas_.length + 1) ∧
      (insert_operation.call cfg op nptr nptr.as_leaf pptr).2.1.deltas_.length
        ≤ cfg.CONSOLIDATE_AT - 1) ∧
    (∀ (op op1 : delete_operation K) (nptr : node_pointer K V) (pptr : physical_pointer)
        (data : payload K V) (ln : leaf_node K V),
      delete_operation.call cfg op nptr nptr.as_leaf pptr = some (data, ln, op1) →
      ln.deltas_.length
        = (if nptr.as_leaf.deltas_.length + 1 ≥ cfg.CONSOLIDATE_AT then 0
            else nptr.as_leaf.deltas_.length + 1) ∧
      ln.deltas_.length ≤ cfg.CONSOLIDATE_AT - 1) ∧
    ((exec_leaf_operation E (insert_operation.ops cfg) cfg key tx_id iop fuel w).outcome
        = Outcome.returned true →
      ∃ pre nptr pptr data ln c newv acc,
        (exec_leaf_operation E (insert_operation.ops cfg) cfg key tx_id iop fuel w).trace
          = pre ++ success_trace tx_id nptr pptr data ln c newv acc ∧
        ln.deltas_.length < cfg.CONSOLIDATE_AT) ∧
    ((exec_leaf_operation E (delete_operation.ops cfg) cfg key tx_id dop fuel w).outcome
        = Outcome.returned true →
      ∃ pre nptr pptr data ln c newv acc,
        (exec_leaf_operation E (delete_operation.ops cfg) cfg key tx_id dop fuel w).trace
          = pre ++ success_trace tx_id nptr pptr data ln c newv acc ∧
        ln.deltas_.length < cfg.CONSOLIDATE_AT) := by
  have hins : ∀ (op op1 : insert_operation K V) (nptr : node_pointer K V)
      (pptr : physical_pointer) (data : payload K V) (ln : leaf_node K V),
      (insert_operation.ops cfg).call op nptr nptr.as_leaf pptr = some (data, ln, op1) →
      ln.deltas_.length
        = (if nptr.as_leaf.deltas_.length + 1 ≥ cfg.CONSOLIDATE_AT then 0
            else nptr.as_leaf.deltas_.length + 1) ∧
      ln.deltas_.length ≤ cfg.CONSOLIDATE_AT - 1 := by
    intro op op1 nptr pptr data ln h
    obtain ⟨h1, h2, h3⟩ := insert_call_facts cfg op op1 nptr nptr.as_leaf ln pptr data h
    by_cases hc : nptr.as_leaf.deltas_.length + 1 ≥ cfg.CONSOLIDATE_AT
    · rw [if_pos hc, (h2 (h1.2 hc)).1]
      exact ⟨rfl, Nat.zero_le _⟩
    · have hf : op1.consolidated = false := by
        cases hcons : op1.consolidated
        · rfl
        · exact absurd (h1.1 hcons) hc
      rw [if_neg hc, (h3 hf).1, List.length_cons]
      exact ⟨rfl, by omega⟩
  have hdel : ∀ (op op1 : delete_operation K) (nptr : node_pointer K V)
      (pptr : physical_pointer) (data : payload K V) (ln : leaf_node K V),
      (delete_operation.ops cfg).call op nptr nptr.as_leaf pptr = some (data, ln, op1) →
      ln.deltas_.length
        = (if nptr.as_leaf.deltas_.length + 1 ≥ cfg.CONSOLIDATE_AT then 0
            else nptr.as_leaf.deltas_.length + 1) ∧
      ln.deltas_.length ≤ cfg.CONSOLIDATE_AT - 1 := by
    intro op op1 nptr pptr data ln h
    obtain ⟨h1, h2, h3⟩ := delete_call_facts cfg op op1 nptr nptr.as_leaf ln pptr data h
    by_cases hc : nptr.as_leaf.deltas_.length + 1 ≥ cfg.CONSOLIDATE_AT
    · rw [if_pos hc, (h2 (h1.2 hc)).1]
      exact ⟨rfl, Nat.zero_le _⟩
    · have hf : op1.consolidated = false := by
        cases hcons : op1.consolidated
        · rfl
        · exact absurd (h1.1 hcons) hc
      rw [if_neg hc, (h3 hf).1, List.length_cons]
      exact ⟨rfl, by omega⟩
  refine ⟨?_, ?_, ?_, ?_⟩
  · intro op nptr pptr
    exact hins op _ nptr pptr _ _ rfl
  · intro op op1 nptr pptr data ln h
    exact hdel op op1 nptr pptr data ln h
  · intro ho
    obtain ⟨pre, nptr, op0, tail, ht, _, _, _, hfin⟩ :=
      exec_shape E (insert_operation.ops cfg) cfg key tx_id iop fuel w
    rw [ho] at hfin
    obtain ⟨_, pptr, data, ln, op1, newv, acc, hcall, htail⟩ := hfin
    exact ⟨pre, nptr, pptr, data, ln, _, newv, acc, by rw [ht, htail],
      by have := (hins op0 op1 nptr pptr data ln hcall).2; omega⟩
  · intro ho
    obtain ⟨pre, nptr, op0, tail, ht, _, _, _, hfin⟩ :=
      exec_shape E (delete_operation.ops cfg) cfg key tx_id dop fuel w
    rw [ho] at hfin
    obtain ⟨_, pptr, data, ln, op1, newv, acc, hcall, htail⟩ := hfin
    exact ⟨pre, nptr, pptr, data, ln, _, newv, acc, by rw [ht, htail],
      by have := (hdel op0 op1 nptr pptr data ln hcall).2; omega⟩

/-- Witness of C17: with `CONSOLIDATE_AT = 2`, an insert on a leaf whose chain has length `1`
returns true and offers a leaf with an empty chain. -/
theorem C17_chain_witness :
    1 ≤ demo_cfg.CONSOLIDATE_AT ∧
    (demo_insert (demo_leaf [(1, 10), (5, 50)] [150]) []).outcome = Outcome.returned true ∧
    (insert_operation.call demo_cfg (insert_operation.mk0 3 30)
        (demo_start (demo_leaf [(1, 10), (5, 50)] [150]) []).leaf
        (demo_start (demo_leaf [(1, 10), (5, 50)] [150]) []).leaf.as_leaf
        200).2.1.deltas_.length ≤ demo_cfg.CONSOLIDATE_AT - 1 :=
  ⟨by decide, by decide,
    ((C17_chain_stays_below_threshold demo_env demo_cfg 3 1 (insert_operation.mk0 3 30)
      (delete_operation.mk0 3) 5 (demo_start (demo_leaf [(1, 10), (5, 50)] [150]) [])
      (by decide)).1 (insert_operation.mk0 3 30)
      (demo_start (demo_leaf [(1, 10), (5, 50)] [150]) []).leaf 200).2⟩

end apply_claims

/-! ## The run as a chain of iterations -/

section chain_lemmas

variable {K V W C O : Type}

/-- Every run of the loop is a chain of failed iterations followed by one last iteration on
the node pointer the chain ends with. -/
theorem exec_loop_chain (E : Env K V W C) (I : Operation K V O) (key : K) (tx_id : Nat)
    (ctx : C) : ∀ (fuel : Nat) (leaf : node_pointer K V) (op : O) (w : W),
    ∃ chain op0 tail,
      (exec_loop E I key tx_id ctx fuel leaf op w).trace = chain_trace key leaf chain ++ tail ∧
      chain_ok I leaf op chain op0 ∧
      final_shape I tx_id (chain_last leaf chain) op0 tail
        (exec_loop E I key tx_id ctx fuel leaf op w).outcome := by
  intro fuel
  induction fuel with
  | zero =>
    intro leaf op w
    exact ⟨[], op, [], rfl, rfl, rfl⟩
  | succ n ih =>
    intro leaf op w
    rcases attempt_cases E I key tx_id ctx leaf op w with
      ⟨hc, h⟩ | ⟨hc, ⟨pptr, w1, hcall, h⟩ | ⟨pptr, data, ln, op1, newv, acc, w1, hcall, h⟩ |
        ⟨pptr, data, ln, op1, newv, ec, leaf1, w1, hcall, hec, h⟩ |
        ⟨pptr, data, ln, op1, newv, code, w1, hcall, h⟩⟩
    · rw [exec_loop_done E I key tx_id ctx n leaf op w _ _ _ h]
      exact ⟨[], op, _, rfl, rfl, hc, rfl⟩
    · rw [exec_loop_done E I key tx_id ctx n leaf op w _ _ _ h]
      exact ⟨[], op, _, rfl, rfl, hc, pptr, hcall, rfl⟩
    · rw [exec_loop_done E I key tx_id ctx n leaf op w _ _ _ h]
      exact ⟨[], op, _, rfl, rfl, hc, pptr, data, ln, op1, newv, acc, hcall, rfl⟩
    · rw [exec_loop_retry E I key tx_id ctx n leaf op w _ _ _ _ h]
      obtain ⟨chain, op0, tail, ht, hok, hfin⟩ := ih leaf1 op1 w1
      refine ⟨{ pptr := pptr, data := data, new_version := newv, ec := ec, next := leaf1 }
        :: chain, op0, tail, ?_, ⟨hc, hec, ln, op1, hcall, hok⟩, hfin⟩
      simp only [ht, chain_trace, List.append_assoc]
    · rw [exec_loop_done E I key tx_id ctx n leaf op w _ _ _ h]
      exact ⟨[], op, _, rfl, rfl, hc, pptr, data, ln, op1, newv, code, rfl, hcall, rfl⟩

end chain_lemmas

section exec_chain_lemmas

variable {K V W C O : Type} [LinearOrder K]

/-- Every call is a sequence of restarts (search followed by split or merge), then the search
that resolves a leaf whose size is in bounds, then a chain of failed iterations and one last
iteration; or it runs out of fuel among the restarts. -/
theorem exec_chain (E : Env K V W C) (I : Operation K V O) (cfg : config K) (key : K)
    (tx_id : Nat) (op : O) : ∀ (fuel : Nat) (w : W),
    ∃ restarts, (∀ e ∈ restarts, Event.is_restart_step e = true) ∧
      (((exec_leaf_operation E I cfg key tx_id op fuel w).outcome = Outcome.out_of_fuel ∧
          (exec_leaf_operation E I cfg key tx_id op fuel w).trace = restarts) ∨
        ∃ nptr chain op0 tail,
          (exec_leaf_operation E I cfg key tx_id op fuel w).trace
            = restarts ++ Event.lower_node_bound key tx_id nptr
                :: (chain_trace key nptr chain ++ tail) ∧
          leaf_in_bounds E cfg nptr.as_leaf ∧
          chain_ok I nptr op chain op0 ∧
          final_shape I tx_id (chain_last nptr chain) op0 tail
            (exec_leaf_operation E I cfg key tx_id op fuel w).outcome) := by
  intro fuel
  induction fuel with
  | zero =>
    intro w
    exact ⟨[], by simp, Or.inl ⟨rfl, rfl⟩⟩
  | succ n ih =>
    intro w
    by_cases h1 : E.serialized_size (E.lower_node_bound key tx_id w).1.1.as_leaf
        ≥ cfg.MAX_NODE_SIZE
    · rw [exec_split E I cfg key tx_id op n w h1]
      obtain ⟨restarts, hr, hrest⟩ := ih
        (E.split (E.lower_node_bound key tx_id w).1.1 (E.lower_node_bound key tx_id w).1.2
          (E.lower_node_bound key tx_id w).2)
      refine ⟨Event.lower_node_bound key tx_id (E.lower_node_bound key tx_id w).1.1
        :: Event.split (E.lower_node_bound key tx_id w).1.1 :: restarts, ?_, ?_⟩
      · intro e he
        simp only [List.mem_cons] at he
        rcases he with rfl | rfl | he
        · rfl
        · rfl
        · exact hr e he
      · rcases hrest with ⟨ho, ht⟩ | ⟨nptr, chain, op0, tail, ht, hb, hok, hfin⟩
        · exact Or.inl ⟨ho, by rw [ht]⟩
        · exact Or.inr ⟨nptr, chain, op0, tail, by rw [ht]; rfl, hb, hok, hfin⟩
    · by_cases h2 : E.serialized_size (E.lower_node_bound key tx_id w).1.1.as_leaf
          < cfg.MIN_NODE_SIZE ∧ ¬ is_boundary cfg (E.lower_node_bound key tx_id w).1.1.as_leaf
      · rw [exec_merge E I cfg key tx_id op n w h1 h2.1 h2.2]
        obtain ⟨restarts, hr, hrest⟩ := ih
          (E.merge (E.lower_node_bound key tx_id w).1.1 (E.lower_node_bound key tx_id w).1.2
            (E.lower_node_bound key tx_id w).2)
        refine ⟨Event.lower_node_bound key tx_id (E.lower_node_bound key tx_id w).1.1
          :: Event.merge (E.lower_node_bound key tx_id w).1.1 :: restarts, ?_, ?_⟩
        · intro e he
          simp only [List.mem_cons] at he
          rcases he with rfl | rfl | he
          · rfl
          · rfl
          · exact hr e he
        · rcases hrest with ⟨ho, ht⟩ | ⟨nptr, chain, op0, tail, ht, hb, hok, hfin⟩
          · exact Or.inl ⟨ho, by rw [ht]⟩
          · exact Or.inr ⟨nptr, chain, op0, tail, by rw [ht]; rfl, hb, hok, hfin⟩
      · rw [exec_in_bounds E I cfg key tx_id op n w h1 h2]
        obtain ⟨chain, op0, tail, ht, hok, hfin⟩ :=
          exec_loop_chain E I key tx_id (E.lower_node_bound key tx_id w).1.2 n
            (E.lower_node_bound key tx_id w).1.1 op (E.lower_node_bound key tx_id w).2
        refine ⟨[], by simp, Or.inr ⟨(E.lower_node_bound key tx_id w).1.1, chain, op0, tail,
          by rw [ht]; rfl, ?_, hok, hfin⟩⟩
        refine ⟨by omega, ?_⟩
        by_cases hb : is_boundary cfg (E.lower_node_bound key tx_id w).1.1.as_leaf
        · exact Or.inr hb
        · left
          by_contra hlt
          exact h2 ⟨by omega, hb⟩

end exec_chain_lemmas

/-! ## The context of every update in a run -/

section update_context

variable {K V W C O : Type}

theorem append_cons_split {α : Type} (pre post A B : List α) (u : α)
    (h : pre ++ u :: post = A ++ B) :
    (∃ A2, A = pre ++ u :: A2 ∧ post = A2 ++ B) ∨
      (∃ pre1, pre = A ++ pre1 ∧ B = pre1 ++ u :: post) := by
  rcases List.append_eq_append_iff.1 h with ⟨a1, hA, hB⟩ | ⟨c1, hp, hB⟩
  · cases a1 with
    | nil =>
      right
      exact ⟨[], by simpa using hA.symm, by simpa using hB.symm⟩
    | cons x a2 =>
      left
      simp only [List.cons_append, List.cons.injEq] at hB
      obtain ⟨rfl, hpost⟩ := hB
      exact ⟨a2, hA, hpost⟩
  · right
    exact ⟨c1, hp, hB⟩

theorem split_unique {α : Type} (P : α → Prop) :
    ∀ (p1 s1 p2 s2 : List α) (x y : α), p1 ++ x :: s1 = p2 ++ y :: s2 →
      (∀ e ∈ p1, ¬ P e) → (∀ e ∈ s1, ¬ P e) → P y → p2 = p1 ∧ y = x ∧ s2 = s1 := by
  intro p1
  induction p1 with
  | nil =>
    intro s1 p2 s2 x y h _ hs hy
    cases p2 with
    | nil =>
      simp only [List.nil_append, List.cons.injEq] at h
      exact ⟨rfl, h.1.symm, h.2.symm⟩
    | cons z p3 =>
      simp only [List.nil_append, List.cons_append, List.cons.injEq] at h
      exact absurd hy (hs y (by rw [h.2]; simp))
  | cons a p1 ih =>
    intro s1 p2 s2 x y h hp hs hy
    cases p2 with
    | nil =>
      simp only [List.nil_append, List.cons_append, List.cons.injEq] at h
      exact absurd (h.1 ▸ hy) (hp a (by simp))
    | cons z p3 =>
      simp only [List.cons_append, List.cons.injEq] at h
      obtain ⟨h1, h2, h3⟩ := ih s1 p3 s2 x y h.2 (fun e he => hp e (by simp [he])) hs hy
      exact ⟨by rw [h1, h.1], h2, h3⟩

theorem resolved_not_update (e : Event K V) (n : node_pointer K V)
    (h : e.resolved = some n) : e.update_result = none := by
  cases e <;> simp [Event.resolved] at h <;> rfl

theorem final_shape_no_restart (I : Operation K V O) (tx_id : Nat) (n : node_pointer K V)
    (op0 : O) (tail : List (Event K V)) (o : Outcome) (h : final_shape I tx_id n op0 tail o) :
    ∀ x ∈ tail, Event.is_restart_step x = false := by
  intro x hx
  cases o with
  | returned b =>
    cases b
    · rw [h.2] at hx
      simp only [List.mem_singleton] at hx
      subst hx
      rfl
    · obtain ⟨_, pptr, data, ln, op1, newv, acc, _, htail⟩ := h
      rw [htail] at hx
      exact success_trace_no_restart _ _ _ _ _ _ _ _ x hx
  | thrown ec =>
    obtain ⟨_, pptr, data, ln, op1, newv, code, _, _, htail⟩ := h
    rw [htail] at hx
    simp only [List.mem_cons, List.mem_singleton, List.not_mem_nil, or_false] at hx
    rcases hx with rfl | rfl | rfl | rfl <;> rfl
  | assertion_failed =>
    obtain ⟨_, pptr, _, htail⟩ := h
    rw [htail] at hx
    simp only [List.mem_cons, List.mem_singleton, List.not_mem_nil, or_false] at hx
    rcases hx with rfl | rfl <;> rfl
  | out_of_fuel =>
    have htail : tail = [] := h
    rw [htail] at hx
    cases hx

theorem chain_tail_no_restart (I : Operation K V O) (key : K) (tx_id : Nat) :
    ∀ (chain : List (failed_attempt K V)) (nptr : node_pointer K V) (op0 : O)
      (tail : List (Event K V)) (o : Outcome),
      final_shape I tx_id (chain_last nptr chain) op0 tail o →
      ∀ x ∈ chain_trace key nptr chain ++ tail, Event.is_restart_step x = false := by
  intro chain
  induction chain with
  | nil =>
    intro nptr op0 tail o hfin x hx
    exact final_shape_no_restart I tx_id _ op0 tail o hfin x (by simpa [chain_trace] using hx)
  | cons a rest ih =>
    intro nptr op0 tail o hfin x hx
    simp only [chain_trace, List.append_assoc, List.mem_append] at hx
    rcases hx with hx | hx
    · exact retry_trace_no_restart _ _ _ _ _ _ _ x hx
    · exact ih a.next op0 tail o hfin x (List.mem_append.2 hx)

/-- What follows a re-resolution: nothing when the fuel is used up, else `has_conflicts` on
the leaf just resolved. -/
theorem chain_tail_head (I : Operation K V O) (key : K) (tx_id : Nat)
    (chain : List (failed_attempt K V)) (nptr : node_pointer K V) (op0 : O)
    (tail : List (Event K V)) (o : Outcome)
    (hfin : final_shape I tx_id (chain_last nptr chain) op0 tail o) :
    (chain_trace key nptr chain ++ tail = [] ∧ o = Outcome.out_of_fuel) ∨
      ∃ b t, chain_trace key nptr chain ++ tail = Event.has_conflicts nptr.as_leaf b :: t := by
  cases chain with
  | nil =>
    simp only [chain_trace, chain_last, List.nil_append] at hfin ⊢
    cases o with
    | returned b =>
      cases b
      · exact Or.inr ⟨true, [], hfin.2⟩
      · obtain ⟨_, pptr, data, ln, op1, newv, acc, _, htail⟩ := hfin
        exact Or.inr ⟨false, _, by rw [htail]; rfl⟩
    | thrown ec =>
      obtain ⟨_, pptr, data, ln, op1, newv, code, _, _, htail⟩ := hfin
      exact Or.inr ⟨false, _, htail⟩
    | assertion_failed =>
      obtain ⟨_, pptr, _, htail⟩ := hfin
      exact Or.inr ⟨false, _, htail⟩
    | out_of_fuel => exact Or.inl ⟨hfin, rfl⟩
  | cons a rest =>
    right
    exact ⟨false, _, rfl⟩

theorem cleanup_events_not_update (c : Bool) (l : List physical_pointer) :
    ∀ e ∈ (if c then l.map (Event.remove : physical_pointer → Event K V) else []),
      ¬ e.update_result ≠ none := by
  intro e he
  cases c
  · simp at he
  · simp only [if_true, List.mem_map] at he
    obtain ⟨p, _, rfl⟩ := he
    simp [Event.update_result]

theorem attempt_head_not_update (e0 : Event K V) (n : node_pointer K V)
    (he0 : e0.resolved = some n) (pptr : physical_pointer) (data : payload K V) :
    ∀ e ∈ [e0, Event.has_conflicts n.as_leaf false, Event.get_next_ptr pptr,
        Event.insert pptr data], ¬ e.update_result ≠ none := by
  intro e he
  simp only [List.mem_cons, List.mem_singleton, List.not_mem_nil, or_false] at he
  rcases he with rfl | rfl | rfl | rfl
  · simp [resolved_not_update _ n he0]
  · simp [Event.update_result]
  · simp [Event.update_result]
  · simp [Event.update_result]

/-- Every update in a chain of iterations belongs to an iteration on the node pointer
resolved just before it, and what follows the update is decided by its answer. -/
theorem chain_update_context (I : Operation K V O) (key : K) (tx_id : Nat) :
    ∀ (chain : List (failed_attempt K V)) (nptr : node_pointer K V) (op op0 : O)
      (tail : List (Event K V)) (o : Outcome) (e0 : Event K V),
      e0.resolved = some nptr → chain_ok I nptr op chain op0 →
      final_shape I tx_id (chain_last nptr chain) op0 tail o →
      ∀ (pre post : List (Event K V)) (lptr : logical_pointer) (pptr : physical_pointer)
        (ver newv : Nat) (ec : error),
        e0 :: (chain_trace key nptr chain ++ tail)
          = pre ++ Event.update lptr pptr ver newv ec :: post →
        ∃ pre0 e n opx data ln op1,
          pre = pre0 ++ [e, Event.has_conflicts n.as_leaf false, Event.get_next_ptr pptr,
            Event.insert pptr data] ∧
          e.resolved = some n ∧ lptr = n.lptr_ ∧ ver = n.rc_version_ ∧
          I.has_conflicts opx n.as_leaf = false ∧
          I.call opx n n.as_leaf pptr = some (data, ln, op1) ∧
          (ec = error.ok → o = Outcome.returned true ∧
            ∃ acc, post = Event.add_entry
                { lptr_ := n.lptr_, ptr_ := pptr, rc_version_ := newv, node_ := ln } tx_id acc
              :: (if I.consolidated op1 then
                    (n.as_leaf.deltas_ ++ [n.as_leaf.leaf_pptr_]).map Event.remove
                  else [])) ∧
          (ec = error.object_doesnt_exist ∨ ec = error.wrong_version →
            ∃ leaf1 rest,
              post = (if ec = error.object_doesnt_exist then [Event.invalidate n.lptr_] else [])
                ++ Event.remove pptr :: Event.lower_bound_node_with_context key leaf1 :: rest ∧
              ((rest = [] ∧ o = Outcome.out_of_fuel) ∨
                ∃ b t, rest = Event.has_conflicts leaf1.as_leaf b :: t) ∧
              ∀ x ∈ rest, Event.is_restart_step x = false) ∧
          (∀ code, ec = error.other code →
            post = [] ∧ o = Outcome.thrown (error.other code)) := by
  intro chain
  induction chain with
  | nil =>
    intro nptr op op0 tail o e0 he0 hok hfin pre post lptr pptr ver newv ec h
    simp only [chain_trace, chain_last, List.nil_append] at h hfin
    have hmem : Event.update lptr pptr ver newv ec ∈ e0 :: tail := by
      rw [h]
      simp
    have hne0 : Event.update lptr pptr ver newv ec ≠ e0 := by
      intro hc
      rw [← hc] at he0
      simp [Event.resolved] at he0
    cases o with
    | returned b =>
      cases b
      · rw [hfin.2] at hmem
        simp only [List.mem_cons, List.mem_singleton, reduceCtorEq, List.not_mem_nil,
          or_false] at hmem
        exact absurd hmem hne0
      · obtain ⟨hc, p, data, ln, op1, nv, acc, hcall, htail⟩ := hfin
        have hs : e0 :: tail
            = [e0, Event.has_conflicts nptr.as_leaf false, Event.get_next_ptr p,
                Event.insert p data]
              ++ Event.update nptr.lptr_ p nptr.rc_version_ nv error.ok
              :: (Event.add_entry
                    { lptr_ := nptr.lptr_, ptr_ := p, rc_version_ := nv, node_ := ln }
                    tx_id acc
                  :: (if I.consolidated op1 then
                        (nptr.as_leaf.deltas_ ++ [nptr.as_leaf.leaf_pptr_]).map Event.remove
                      else [])) := by
          rw [htail]
          rfl
        rw [hs] at h
        obtain ⟨hpre, hu, hpost⟩ := split_unique (fun e : Event K V => e.update_result ≠ none)
          _ _ _ _ _ _ h (attempt_head_not_update e0 nptr he0 p data)
          (by
            intro e he
            rcases List.mem_cons.1 he with rfl | he1
            · simp [Event.update_result]
            · exact cleanup_events_not_update _ _ e he1)
          (by simp [Event.update_result])
        simp only [Event.update.injEq] at hu
        obtain ⟨rfl, rfl, rfl, rfl, rfl⟩ := hu
        refine ⟨[], e0, nptr, op0, data, ln, op1, by rw [hpre]; rfl, he0, rfl, rfl, hc, hcall,
          ?_, ?_, ?_⟩
        · intro _
          exact ⟨rfl, acc, hpost⟩
        · intro hc2
          rcases hc2 with hc2 | hc2 <;> cases hc2
        · intro code hc2
          cases hc2
    | thrown ec1 =>
      obtain ⟨hc, p, data, ln, op1, nv, code, hec, hcall, htail⟩ := hfin
      have hs : e0 :: tail
          = [e0, Event.has_conflicts nptr.as_leaf false, Event.get_next_ptr p,
              Event.insert p data]
            ++ Event.update nptr.lptr_ p nptr.rc_version_ nv (error.other code) :: [] := by
        rw [htail]
        rfl
      rw [hs] at h
      obtain ⟨hpre, hu, hpost⟩ := split_unique (fun e : Event K V => e.update_result ≠ none)
        _ _ _ _ _ _ h (attempt_head_not_update e0 nptr he0 p data)
        (by intro e he; cases he)
        (by simp [Event.update_result])
      simp only [Event.update.injEq] at hu
      obtain ⟨rfl, rfl, rfl, rfl, rfl⟩ := hu
      refine ⟨[], e0, nptr, op0, data, ln, op1, by rw [hpre]; rfl, he0, rfl, rfl, hc, hcall,
        ?_, ?_, ?_⟩
      · intro hc2
        cases hc2
      · intro hc2
        rcases hc2 with hc2 | hc2 <;> cases hc2
      · intro code2 hc2
        cases hc2
        exact ⟨hpost, by rw [hec]⟩
    | assertion_failed =>
      obtain ⟨_, p, _, htail⟩ := hfin
      rw [htail] at hmem
      simp only [List.mem_cons, List.mem_singleton, reduceCtorEq, List.not_mem_nil,
        or_false] at hmem
      exact absurd hmem hne0
    | out_of_fuel =>
      have htail : tail = [] := hfin
      rw [htail] at hmem
      simp only [List.mem_singleton] at hmem
      exact absurd hmem hne0
  | cons a rest ih =>
    intro nptr op op0 tail o e0 he0 hok hfin pre post lptr pptr ver newv ec h
    obtain ⟨hc, hec, ln, op1, hcall, hok1⟩ := hok
    have hs : e0 :: (chain_trace key nptr (a :: rest) ++ tail)
        = ([e0, Event.has_conflicts nptr.as_leaf false, Event.get_next_ptr a.pptr,
              Event.insert a.pptr a.data]
            ++ Event.update nptr.lptr_ a.pptr nptr.rc_version_ a.new_version a.ec
            :: ((if a.ec = error.object_doesnt_exist then [Event.invalidate nptr.lptr_]
                  else []) ++ [Event.remove a.pptr]))
          ++ (Event.lower_bound_node_with_context key a.next
              :: (chain_trace key a.next rest ++ tail)) := by
      simp only [chain_trace, retry_trace, List.append_assoc, List.cons_append,
        List.nil_append]
    rw [hs] at h
    rcases append_cons_split _ _ _ _ _ h.symm with ⟨A2, hA, hpost⟩ | ⟨pre1, hpre, hB⟩
    · obtain ⟨hpre, hu, hA2⟩ := split_unique (fun e : Event K V => e.update_result ≠ none)
        _ _ _ _ _ _ hA (attempt_head_not_update e0 nptr he0 a.pptr a.data)
        (by
          intro e he
          by_cases hode : a.ec = error.object_doesnt_exist
          · simp only [hode, if_true, List.cons_append, List.nil_append, List.mem_cons,
              List.mem_singleton, List.not_mem_nil, or_false] at he
            rcases he with rfl | rfl <;> simp [Event.update_result]
          · simp only [hode, if_false, List.nil_append, List.mem_singleton] at he
            subst he
            simp [Event.update_result])
        (by simp [Event.update_result])
      simp only [Event.update.injEq] at hu
      obtain ⟨rfl, rfl, rfl, rfl, rfl⟩ := hu
      refine ⟨[], e0, nptr, op, a.data, ln, op1, by rw [hpre]; rfl, he0, rfl, rfl, hc, hcall,
        ?_, ?_, ?_⟩
      · intro hc2
        rcases hec with h1 | h1 <;> rw [h1] at hc2 <;> cases hc2
      · intro _
        refine ⟨a.next, chain_trace key a.next rest ++ tail, ?_,
          chain_tail_head I key tx_id rest a.next op0 tail o hfin,
          chain_tail_no_restart I key tx_id rest a.next op0 tail o hfin⟩
        rw [hpost, hA2]
        simp only [List.append_assoc, List.cons_append, List.nil_append]
      · intro code hc2
        rcases hec with h1 | h1 <;> rw [h1] at hc2 <;> cases hc2
    · obtain ⟨pre0, e, n, opx, data, ln2, op2, hp, hres, hl, hv, hcf, hcl, h1, h2, h3⟩ :=
        ih a.next op1 op0 tail o (Event.lower_bound_node_with_context key a.next) rfl hok1 hfin
          pre1 post lptr pptr ver newv ec hB
      subst hpre hp
      exact ⟨_, e, n, opx, data, ln2, op2, (List.append_assoc _ _ _).symm, hres, hl, hv, hcf,
        hcl, h1, h2, h3⟩

end update_context

section exec_update_context

variable {K V W C O : Type} [LinearOrder K]

/-- Every update of a call belongs to an iteration on the node pointer resolved just before
it, and what follows the update is decided by its answer. -/
theorem exec_update_context (E : Env K V W C) (I : Operation K V O) (cfg : config K) (key : K)
    (tx_id : Nat) (op : O) (fuel : Nat) (w : W) (pre post : List (Event K V))
    (lptr : logical_pointer) (pptr : physical_pointer) (ver newv : Nat) (ec : error)
    (h : (exec_leaf_operation E I cfg key tx_id op fuel w).trace
      = pre ++ Event.update lptr pptr ver newv ec :: post) :
    ∃ pre0 e n opx data ln op1,
      pre = pre0 ++ [e, Event.has_conflicts n.as_leaf false, Event.get_next_ptr pptr,
        Event.insert pptr data] ∧
      e.resolved = some n ∧ lptr = n.lptr_ ∧ ver = n.rc_version_ ∧
      I.has_conflicts opx n.as_leaf = false ∧
      I.call opx n n.as_leaf pptr = some (data, ln, op1) ∧
      (ec = error.ok →
        (exec_leaf_operation E I cfg key tx_id op fuel w).outcome = Outcome.returned true ∧
        ∃ acc, post = Event.add_entry
            { lptr_ := n.lptr_, ptr_ := pptr, rc_version_ := newv, node_ := ln } tx_id acc
          :: (if I.consolidated op1 then
                (n.as_leaf.deltas_ ++ [n.as_leaf.leaf_pptr_]).map Event.remove
              else [])) ∧
      (ec = error.object_doesnt_exist ∨ ec = error.wrong_version →
        ∃ leaf1 rest,
          post = (if ec = error.object_doesnt_exist then [Event.invalidate n.lptr_] else [])
            ++ Event.remove pptr :: Event.lower_bound_node_with_context key leaf1 :: rest ∧
          ((rest = [] ∧
              (exec_leaf_operation E I cfg key tx_id op fuel w).outcome = Outcome.out_of_fuel) ∨
            ∃ b t, rest = Event.has_conflicts leaf1.as_leaf b :: t) ∧
          ∀ x ∈ rest, Event.is_restart_step x = false) ∧
      (∀ code, ec = error.other code →
        post = [] ∧
        (exec_leaf_operation E I cfg key tx_id op fuel w).outcome
          = Outcome.thrown (error.other code)) := by
  obtain ⟨restarts, hr, hcase⟩ := exec_chain E I cfg key tx_id op fuel w
  have hnot : Event.update lptr pptr ver newv ec ∉ restarts := by
    intro hm
    have := hr _ hm
    cases this
  rcases hcase with ⟨_, ht⟩ | ⟨nptr, chain, op0, tail, ht, _, hok, hfin⟩
  · rw [ht] at h
    exact absurd (by rw [h]; simp) hnot
  · rw [ht] at h
    rcases append_cons_split _ _ _ _ _ h.symm with ⟨A2, hA, _⟩ | ⟨pre1, hpre, hB⟩
    · exact absurd (by rw [hA]; simp) hnot
    · obtain ⟨pre0, e, n, opx, data, ln, op1, hp, hres, hl, hv, hcf, hcl, h1, h2, h3⟩ :=
        chain_update_context I key tx_id chain nptr op op0 tail _
          (Event.lower_node_bound key tx_id nptr) rfl hok hfin pre1 post lptr pptr ver newv ec hB
      subst hpre hp
      exact ⟨_, e, n, opx, data, ln, op1, (List.append_assoc _ _ _).symm, hres, hl, hv, hcf,
        hcl, h1, h2, h3⟩

end exec_update_context

/-! ## Claims about the retry loop -/

section retry_claims

variable {K V W C O : Type} [LinearOrder K]

/-- C12 (as the code has it): either the call never gets past the search, split and merge
calls, or its trace is a sequence of such calls followed by the search that resolves a node
pointer `nptr`, then `has_conflicts` on the leaf of `nptr`, then calls none of which is a
search from the top, a split or a merge; the leaf of `nptr`, which the first iteration
clones and mutates, has size below `MAX_NODE_SIZE` and, unless it is a boundary leaf, at
least `MIN_NODE_SIZE`.  After an update that fails with `object_doesnt_exist` or
`wrong_version` the next iteration starts with `has_conflicts` on the leaf re-resolved by
`lower_bound_node_with_context`, with no size check in between. -/
theorem C12_first_iteration_leaf_in_bounds (E : Env K V W C) (I : Operation K V O)
    (cfg : config K) (key : K) (tx_id : Nat) (op : O) (fuel : Nat) (w : W) :
    ((∀ e ∈ (exec_leaf_operation E I cfg key tx_id op fuel w).trace,
        Event.is_restart_step e = true) ∨
      ∃ restarts nptr b t,
        (exec_leaf_operation E I cfg key tx_id op fuel w).trace
          = restarts ++ Event.lower_node_bound key tx_id nptr
              :: Event.has_conflicts nptr.as_leaf b :: t ∧
        (∀ e ∈ restarts, Event.is_restart_step e = true) ∧
        (∀ x ∈ t, Event.is_restart_step x = false) ∧
        E.serialized_size nptr.as_leaf < cfg.MAX_NODE_SIZE ∧
        (cfg.MIN_NODE_SIZE ≤ E.serialized_size nptr.as_leaf ∨ is_boundary cfg nptr.as_leaf)) ∧
    (∀ (pre post : List (Event K V)) (lptr : logical_pointer) (pptr : physical_pointer)
        (ver newv : Nat) (ec : error),
      (exec_leaf_operation E I cfg key tx_id op fuel w).trace
        = pre ++ Event.update lptr pptr ver newv ec :: post →
      ec = error.object_doesnt_exist ∨ ec = error.wrong_version →
      ∃ leaf1 rest,
        post = (if ec = error.object_doesnt_exist then [Event.invalidate lptr] else [])
          ++ Event.remove pptr :: Event.lower_bound_node_with_context key leaf1 :: rest ∧
        (rest = [] ∨ ∃ b t, rest = Event.has_conflicts leaf1.as_leaf b :: t) ∧
        ∀ x ∈ rest, Event.is_restart_step x = false) := by
  constructor
  · obtain ⟨restarts, hr, hcase⟩ := exec_chain E I cfg key tx_id op fuel w
    rcases hcase with ⟨_, ht⟩ | ⟨nptr, chain, op0, tail, ht, hb, _, hfin⟩
    · left
      rw [ht]
      exact hr
    · rcases chain_tail_head I key tx_id chain nptr op0 tail _ hfin with ⟨hnil, _⟩ | ⟨b, t, hct⟩
      · left
        rw [ht, hnil]
        intro e he
        rcases List.mem_append.1 he with h1 | h1
        · exact hr e h1
        · rw [List.mem_singleton.1 h1]
          rfl
      · right
        refine ⟨restarts, nptr, b, t, by rw [ht, hct], hr, ?_, hb.1, hb.2⟩
        intro x hx
        exact chain_tail_no_restart I key tx_id chain nptr op0 tail _ hfin x
          (by rw [hct]; exact List.mem_cons_of_mem _ hx)
  · intro pre post lptr pptr ver newv ec h hec
    obtain ⟨pre0, e, n, opx, data, ln, op1, _, _, hl, _, _, _, _, h2, _⟩ :=
      exec_update_context E I cfg key tx_id op fuel w pre post lptr pptr ver newv ec h
    obtain ⟨leaf1, rest, hpost, hnext, hno⟩ := h2 hec
    refine ⟨leaf1, rest, by rw [hpost, hl], ?_, hno⟩
    rcases hnext with ⟨hnil, _⟩ | hhead
    · exact Or.inl hnil
    · exact Or.inr hhead

/-- C12 fails as stated: the first update is answered `wrong_version`, the re-resolution
returns a leaf of four entries (`MAX_NODE_SIZE = 4`), and the next iteration checks it for
conflicts, writes a delta for it and installs it with a successful update; no split is
invoked. -/
theorem C12_oversized_leaf_is_mutated :
    demo_cfg.MAX_NODE_SIZE ≤ demo_env_grown.serialized_size
      (demo_leaf [(1, 10), (2, 20), (4, 40), (5, 50)] []) ∧
    ((demo_insert_grown (demo_leaf [(1, 10), (5, 50)] []) [(0, error.wrong_version)]).trace.drop
        6).take 5
      = [Event.lower_bound_node_with_context 3
          { lptr_ := 7, ptr_ := 100, rc_version_ := 4,
            node_ := demo_leaf [(1, 10), (2, 20), (4, 40), (5, 50)] [] },
        Event.has_conflicts (demo_leaf [(1, 10), (2, 20), (4, 40), (5, 50)] []) false,
        Event.get_next_ptr 201,
        Event.insert 201 (payload.ins { value := (3, 30), next := 100 }),
        Event.update 7 201 4 5 error.ok] ∧
    (demo_insert_grown (demo_leaf [(1, 10), (5, 50)] []) [(0, error.wrong_version)]).outcome
      = Outcome.returned true ∧
    ∀ e ∈ (demo_insert_grown (demo_leaf [(1, 10), (5, 50)] [])
        [(0, error.wrong_version)]).trace.drop 1, Event.is_restart_step e = false := by
  decide

/-- Witness of C12: an insert whose first update is answered `wrong_version`; the first
iteration works on the leaf of two entries found by the search. -/
theorem C12_first_iteration_witness :
    ∃ restarts nptr b t,
      (demo_insert (demo_leaf [(1, 10), (5, 50)] []) [(0, error.wrong_version)]).trace
        = restarts ++ Event.lower_node_bound 3 1 nptr :: Event.has_conflicts nptr.as_leaf b :: t ∧
      (∀ e ∈ restarts, Event.is_restart_step e = true) ∧
      (∀ x ∈ t, Event.is_restart_step x = false) ∧
      demo_env.serialized_size nptr.as_leaf < demo_cfg.MAX_NODE_SIZE ∧
      (demo_cfg.MIN_NODE_SIZE ≤ demo_env.serialized_size nptr.as_leaf
        ∨ is_boundary demo_cfg nptr.as_leaf) :=
  (C12_first_iteration_leaf_in_bounds demo_env (insert_operation.ops demo_cfg) demo_cfg 3 1
    (insert_operation.mk0 3 30) 5
    (demo_start (demo_leaf [(1, 10), (5, 50)] []) [(0, error.wrong_version)])).1.resolve_left
    (by decide)

end retry_claims

/-! ## Lemmas on runs against two caches -/

section cache_lemmas

variable {K V W C O : Type}

theorem attempt_with_add_entry (E : Env K V W C) (I : Operation K V O) (key : K) (tx_id : Nat)
    (ctx : C) (leaf : node_pointer K V) (op : O) (w : W)
    (f : node_pointer K V → Nat → W → Bool × W) :
    attempt { E with add_entry := f } I key tx_id ctx leaf op w
        = attempt E I key tx_id ctx leaf op w ∨
      ∃ pptr data ln op1 newv acc1 acc2 w1 w2,
        I.call op leaf leaf.as_leaf pptr = some (data, ln, op1) ∧
        attempt E I key tx_id ctx leaf op w
          = (Step.done (Outcome.returned true),
              success_trace tx_id leaf pptr data ln (I.consolidated op1) newv acc1, w1) ∧
        attempt { E with add_entry := f } I key tx_id ctx leaf op w
          = (Step.done (Outcome.returned true),
              success_trace tx_id leaf pptr data ln (I.consolidated op1) newv acc2, w2) := by
  by_cases hc : I.has_conflicts op leaf.as_leaf = true
  · left
    simp only [attempt, hc, if_true]
  · have hc0 : I.has_conflicts op leaf.as_leaf = false := by simpa using hc
    cases hcall : I.call op leaf leaf.as_leaf (E.get_next_ptr ctx w).1 with
    | none =>
      left
      simp only [attempt, hc0, hcall, Bool.false_eq_true, if_false]
    | some res =>
      obtain ⟨data, ln, op1⟩ := res
      cases hec : (E.update ctx leaf.lptr_ (E.get_next_ptr ctx w).1 leaf.rc_version_
          (E.insert ctx (E.get_next_ptr ctx w).1 data (E.get_next_ptr ctx w).2)).1.2 with
      | ok =>
        right
        refine ⟨(E.get_next_ptr ctx w).1, data, ln, op1,
          (E.update ctx leaf.lptr_ (E.get_next_ptr ctx w).1 leaf.rc_version_
            (E.insert ctx (E.get_next_ptr ctx w).1 data (E.get_next_ptr ctx w).2)).1.1,
          (E.add_entry
            { lptr_ := leaf.lptr_, ptr_ := (E.get_next_ptr ctx w).1,
              rc_version_ := (E.update ctx leaf.lptr_ (E.get_next_ptr ctx w).1
                leaf.rc_version_
                (E.insert ctx (E.get_next_ptr ctx w).1 data (E.get_next_ptr ctx w).2)).1.1,
              node_ := ln } tx_id
            (E.update ctx leaf.lptr_ (E.get_next_ptr ctx w).1 leaf.rc_version_
              (E.insert ctx (E.get_next_ptr ctx w).1 data (E.get_next_ptr ctx w).2)).2).1,
          (f
            { lptr_ := leaf.lptr_, ptr_ := (E.get_next_ptr ctx w).1,
              rc_version_ := (E.update ctx leaf.lptr_ (E.get_next_ptr ctx w).1
                leaf.rc_version_
                (E.insert ctx (E.get_next_ptr ctx w).1 data (E.get_next_ptr ctx w).2)).1.1,
              node_ := ln } tx_id
            (E.update ctx leaf.lptr_ (E.get_next_ptr ctx w).1 leaf.rc_version_
              (E.insert ctx (E.get_next_ptr ctx w).1 data (E.get_next_ptr ctx w).2)).2).1,
          (attempt E I key tx_id ctx leaf op w).2.2,
          (attempt { E with add_entry := f } I key tx_id ctx leaf op w).2.2, hcall, ?_, ?_⟩
        · simp only [attempt, hc0, hcall, hec, Bool.false_eq_true, if_false, success_trace,
            cleanup_trace, List.cons_append, List.nil_append]
        · simp only [attempt, hc0, hcall, hec, Bool.false_eq_true, if_false, success_trace,
            cleanup_trace, List.cons_append, List.nil_append]
      | object_doesnt_exist =>
        left
        simp only [attempt, hc0, hcall, hec, Bool.false_eq_true, if_false]
      | wrong_version =>
        left
        simp only [attempt, hc0, hcall, hec, Bool.false_eq_true, if_false]
      | other code =>
        left
        simp only [attempt, hc0, hcall, hec, Bool.false_eq_true, if_false]

theorem runs_agree_prepend (I : Operation K V O) (tx_id : Nat) (r1 r2 : Run K V W)
    (t : List (Event K V)) (h : runs_agree_mod_cache I tx_id r1 r2) :
    runs_agree_mod_cache I tx_id
      { outcome := r1.outcome, trace := t ++ r1.trace, world := r1.world }
      { outcome := r2.outcome, trace := t ++ r2.trace, world := r2.world } := by
  rcases h with h | ⟨pre, nptr, op0, pptr, data, ln, op1, newv, acc1, acc2, hcall, ho1, ho2,
    ht1, ht2⟩
  · left
    rw [h]
  · right
    exact ⟨t ++ pre, nptr, op0, pptr, data, ln, op1, newv, acc1, acc2, hcall, ho1, ho2,
      by simp only [ht1, List.append_assoc], by simp only [ht2, List.append_assoc]⟩

/-- Replacing the cache leaves a run of the loop unchanged, except for the answer of the
cache in a successful last iteration (and the world after it). -/
theorem exec_loop_with_add_entry (E : Env K V W C) (I : Operation K V O) (key : K)
    (tx_id : Nat) (ctx : C) (f : node_pointer K V → Nat → W → Bool × W) :
    ∀ (fuel : Nat) (leaf : node_pointer K V) (op : O) (w : W),
      runs_agree_mod_cache I tx_id (exec_loop E I key tx_id ctx fuel leaf op w)
        (exec_loop { E with add_entry := f } I key tx_id ctx fuel leaf op w) := by
  intro fuel
  induction fuel with
  | zero =>
    intro leaf op w
    exact Or.inl rfl
  | succ n ih =>
    intro leaf op w
    rcases attempt_with_add_entry E I key tx_id ctx leaf op w f with
      heq | ⟨pptr, data, ln, op1, newv, acc1, acc2, w1, w2, hcall, h1, h2⟩
    · rcases hA : attempt E I key tx_id ctx leaf op w with ⟨step, t, w1⟩
      cases step with
      | done o =>
        left
        rw [exec_loop_done E I key tx_id ctx n leaf op w _ _ _ hA,
          exec_loop_done _ I key tx_id ctx n leaf op w _ _ _ (heq.trans hA)]
      | retry leaf1 op1 =>
        rw [exec_loop_retry E I key tx_id ctx n leaf op w _ _ _ _ hA,
          exec_loop_retry _ I key tx_id ctx n leaf op w _ _ _ _ (heq.trans hA)]
        exact runs_agree_prepend I tx_id _ _ t (ih leaf1 op1 w1)
    · right
      rw [exec_loop_done E I key tx_id ctx n leaf op w _ _ _ h1,
        exec_loop_done _ I key tx_id ctx n leaf op w _ _ _ h2]
      exact ⟨[], leaf, op, pptr, data, ln, op1, newv, acc1, acc2, hcall, rfl, rfl, rfl, rfl⟩

theorem forget_cache_answer_success_trace (tx_id : Nat) (nptr : node_pointer K V)
    (pptr : physical_pointer) (data : payload K V) (ln : leaf_node K V) (c : Bool) (newv : Nat)
    (acc : Bool) :
    (success_trace tx_id nptr pptr data ln c newv acc).map Event.forget_cache_answer
      = success_trace tx_id nptr pptr data ln c newv true := by
  cases c
  · simp [success_trace, Event.forget_cache_answer]
  · simp only [success_trace, if_true, List.map_append, List.map_cons, List.map_nil,
      List.map_map, Event.forget_cache_answer]
    congr 1

theorem update_calls_forget (t : List (Event K V)) :
    update_calls (t.map Event.forget_cache_answer) = update_calls t := by
  unfold update_calls
  rw [List.filterMap_map]
  congr 1
  funext e
  cases e <;> rfl

theorem inserted_ptrs_forget (t : List (Event K V)) :
    inserted_ptrs (t.map Event.forget_cache_answer) = inserted_ptrs t := by
  unfold inserted_ptrs
  rw [List.filterMap_map]
  congr 1
  funext e
  cases e <;> rfl

theorem removed_ptrs_forget (t : List (Event K V)) :
    removed_ptrs (t.map Event.forget_cache_answer) = removed_ptrs t := by
  unfold removed_ptrs
  rw [List.filterMap_map]
  congr 1
  funext e
  cases e <;> rfl

end cache_lemmas

section exec_cache_lemmas

variable {K V W C O : Type} [LinearOrder K]

/-- Replacing the cache leaves a call unchanged, except for the answer of the cache in a
successful last iteration (and the world after it). -/
theorem exec_with_add_entry (E : Env K V W C) (I : Operation K V O) (cfg : config K) (key : K)
    (tx_id : Nat) (op : O) (f : node_pointer K V → Nat → W → Bool × W) :
    ∀ (fuel : Nat) (w : W),
      runs_agree_mod_cache I tx_id (exec_leaf_operation E I cfg key tx_id op fuel w)
        (exec_leaf_operation { E with add_entry := f } I cfg key tx_id op fuel w) := by
  intro fuel
  induction fuel with
  | zero =>
    intro w
    exact Or.inl rfl
  | succ n ih =>
    intro w
    by_cases h1 : E.serialized_size (E.lower_node_bound key tx_id w).1.1.as_leaf
        ≥ cfg.MAX_NODE_SIZE
    · rw [exec_split E I cfg key tx_id op n w h1,
        exec_split { E with add_entry := f } I cfg key tx_id op n w h1]
      exact runs_agree_prepend I tx_id _ _
        [Event.lower_node_bound key tx_id (E.lower_node_bound key tx_id w).1.1,
          Event.split (E.lower_node_bound key tx_id w).1.1] (ih _)
    · by_cases h2 : E.serialized_size (E.lower_node_bound key tx_id w).1.1.as_leaf
          < cfg.MIN_NODE_SIZE ∧ ¬ is_boundary cfg (E.lower_node_bound key tx_id w).1.1.as_leaf
      · rw [exec_merge E I cfg key tx_id op n w h1 h2.1 h2.2,
          exec_merge { E with add_entry := f } I cfg key tx_id op n w h1 h2.1 h2.2]
        exact runs_agree_prepend I tx_id _ _
          [Event.lower_node_bound key tx_id (E.lower_node_bound key tx_id w).1.1,
            Event.merge (E.lower_node_bound key tx_id w).1.1] (ih _)
      · rw [exec_in_bounds E I cfg key tx_id op n w h1 h2,
          exec_in_bounds { E with add_entry := f } I cfg key tx_id op n w h1 h2]
        exact runs_agree_prepend I tx_id _ _
          [Event.lower_node_bound key tx_id (E.lower_node_bound key tx_id w).1.1]
          (exec_loop_with_add_entry E I key tx_id _ f n _ op _)

end exec_cache_lemmas

/-! ## Claims about the cache -/

section cache_claims

variable {K V W C O : Type} [LinearOrder K]

/-- C18: replace `cache.add_entry` by any other function `f` (one that rejects where the
first accepts, say).  The call then has the same outcome, the same calls with the same
arguments and answers apart from the answer of `add_entry`, hence the same updates of the
pointer table and the same pointers inserted into and removed from the node table.  When the
call returns true, both runs end with the same successful iteration, in which the node
pointer offered to the cache carries the logical pointer of the observed node pointer, the
new physical pointer, the version the update returned, and the leaf `operator()` left in the
clone. -/
theorem C18_cache_answer_is_harmless (E : Env K V W C) (I : Operation K V O)
    (cfg : config K) (key : K) (tx_id : Nat) (op : O) (fuel : Nat) (w : W)
    (f : node_pointer K V → Nat → W → Bool × W) :
    (exec_leaf_operation { E with add_entry := f } I cfg key tx_id op fuel w).outcome
      = (exec_leaf_operation E I cfg key tx_id op fuel w).outcome ∧
    (exec_leaf_operation { E with add_entry := f } I cfg key tx_id op fuel w).trace.map
        Event.forget_cache_answer
      = (exec_leaf_operation E I cfg key tx_id op fuel w).trace.map
          Event.forget_cache_answer ∧
    update_calls (exec_leaf_operation { E with add_entry := f } I cfg key tx_id op fuel w).trace
      = update_calls (exec_leaf_operation E I cfg key tx_id op fuel w).trace ∧
    inserted_ptrs (exec_leaf_operation { E with add_entry := f } I cfg key tx_id op fuel w).trace
      = inserted_ptrs (exec_leaf_operation E I cfg key tx_id op fuel w).trace ∧
    removed_ptrs (exec_leaf_operation { E with add_entry := f } I cfg key tx_id op fuel w).trace
      = removed_ptrs (exec_leaf_operation E I cfg key tx_id op fuel w).trace ∧
    ((exec_leaf_operation E I cfg key tx_id op fuel w).outcome = Outcome.returned true →
      ∃ pre nptr op0 pptr data ln op1 newv acc1 acc2,
        I.call op0 nptr nptr.as_leaf pptr = some (data, ln, op1) ∧
        (exec_leaf_operation E I cfg key tx_id op fuel w).trace
          = pre ++ [Event.has_conflicts nptr.as_leaf false, Event.get_next_ptr pptr,
              Event.insert pptr data,
              Event.update nptr.lptr_ pptr nptr.rc_version_ newv error.ok,
              Event.add_entry
                { lptr_ := nptr.lptr_, ptr_ := pptr, rc_version_ := newv, node_ := ln }
                tx_id acc1]
            ++ (if I.consolidated op1 then
                  (nptr.as_leaf.deltas_ ++ [nptr.as_leaf.leaf_pptr_]).map Event.remove
                else []) ∧
        (exec_leaf_operation { E with add_entry := f } I cfg key tx_id op fuel w).trace
          = pre ++ [Event.has_conflicts nptr.as_leaf false, Event.get_next_ptr pptr,
              Event.insert pptr data,
              Event.update nptr.lptr_ pptr nptr.rc_version_ newv error.ok,
              Event.add_entry
                { lptr_ := nptr.lptr_, ptr_ := pptr, rc_version_ := newv, node_ := ln }
                tx_id acc2]
            ++ (if I.consolidated op1 then
                  (nptr.as_leaf.deltas_ ++ [nptr.as_leaf.leaf_pptr_]).map Event.remove
                else [])) := by
  have hag := exec_with_add_entry E I cfg key tx_id op f fuel w
  have hout : (exec_leaf_operation { E with add_entry := f } I cfg key tx_id op fuel w).outcome
      = (exec_leaf_operation E I cfg key tx_id op fuel w).outcome := by
    rcases hag with h | ⟨_, _, _, _, _, _, _, _, _, _, _, ho1, ho2, _, _⟩
    · rw [h]
    · rw [ho1, ho2]
  have hmap : (exec_leaf_operation { E with add_entry := f } I cfg key tx_id op fuel
        w).trace.map Event.forget_cache_answer
      = (exec_leaf_operation E I cfg key tx_id op fuel w).trace.map
          Event.forget_cache_answer := by
    rcases hag with h | ⟨_, _, _, _, _, _, _, _, _, _, _, _, _, ht1, ht2⟩
    · rw [h]
    · rw [ht1, ht2, List.map_append, List.map_append, forget_cache_answer_success_trace,
        forget_cache_answer_success_trace]
  refine ⟨hout, hmap, ?_, ?_, ?_, ?_⟩
  · have := congrArg update_calls hmap
    rwa [update_calls_forget, update_calls_forget] at this
  · have := congrArg inserted_ptrs hmap
    rwa [inserted_ptrs_forget, inserted_ptrs_forget] at this
  · have := congrArg removed_ptrs hmap
    rwa [removed_ptrs_forget, removed_ptrs_forget] at this
  · intro ho
    rcases hag with h | ⟨pre, nptr, op0, pptr, data, ln, op1, newv, acc1, acc2, hcall, _, _,
      ht1, ht2⟩
    · obtain ⟨pre, nptr, op0, tail, ht, _, _, _, hfin⟩ :=
        exec_shape E I cfg key tx_id op fuel w
      rw [ho] at hfin
      obtain ⟨_, pptr, data, ln, op1, newv, acc, hcall, htail⟩ := hfin
      refine ⟨pre, nptr, op0, pptr, data, ln, op1, newv, acc, acc, hcall, ?_, ?_⟩
      · rw [ht, htail, List.append_assoc]
        rfl
      · rw [h, ht, htail, List.append_assoc]
        rfl
    · refine ⟨pre, nptr, op0, pptr, data, ln, op1, newv, acc1, acc2, hcall, ?_, ?_⟩
      · rw [ht1, List.append_assoc]
        rfl
      · rw [ht2, List.append_assoc]
        rfl

/-- Witness of C18: the insert of `(3, 30)` against a cache that rejects every entry
returns true like the one against the accepting cache, with the same update and the same
pointers written and removed. -/
theorem C18_cache_answer_witness :
    (demo_insert (demo_leaf [(1, 10), (5, 50)] [150]) []).outcome = Outcome.returned true ∧
    (exec_leaf_operation { demo_env with add_entry := fun _ _ w => (false, w) }
        (insert_operation.ops demo_cfg) demo_cfg 3 1 (insert_operation.mk0 3 30) 5
        (demo_start (demo_leaf [(1, 10), (5, 50)] [150]) [])).outcome
      = (demo_insert (demo_leaf [(1, 10), (5, 50)] [150]) []).outcome ∧
    removed_ptrs (exec_leaf_operation { demo_env with add_entry := fun _ _ w => (false, w) }
        (insert_operation.ops demo_cfg) demo_cfg 3 1 (insert_operation.mk0 3 30) 5
        (demo_start (demo_leaf [(1, 10), (5, 50)] [150]) [])).trace
      = [150, 100] :=
  ⟨by decide,
    (C18_cache_answer_is_harmless demo_env (insert_operation.ops demo_cfg) demo_cfg 3 1
      (insert_operation.mk0 3 30) 5 (demo_start (demo_leaf [(1, 10), (5, 50)] [150]) [])
      (fun _ _ w => (false, w))).1,
    by decide⟩

end cache_claims

/-! ## Unique keys through the engine -/

section unique_key_claims

variable {K V W C : Type} [LinearOrder K] [DecidableEq V]

theorem insert_call_array (cfg : config K) (op : insert_operation K V)
    (nptr : node_pointer K V) (ln0 : leaf_node K V) (pptr : physical_pointer) :
    (insert_operation.call cfg op nptr ln0 pptr).2.1.array_ = op.apply_array ln0.array_ := by
  by_cases hc : nptr.as_leaf.deltas_.length + 1 ≥ cfg.CONSOLIDATE_AT
  · simp only [insert_operation.call, hc, if_true]
  · simp only [insert_operation.call, hc, if_false]

/-- C19: on a leaf whose array has strictly increasing keys, when `has_conflicts` returns
false the array step of insert yields an array with strictly increasing keys that consists of
exactly the old entries plus `(key, value)`, placed at the lower bound of the key, and no
entry at the lower bound has the key of the operation (so neither the identical-entry branch
nor the duplicate-key branch of insert is taken); and the array step of delete yields an
array with strictly increasing keys.  In `exec_leaf_operation` with an insert, every update
belongs to an iteration in which `has_conflicts` returned false on the observed leaf and
`operator()` was applied to a clone of that leaf; so when the observed leaf has strictly
increasing keys the branches for an existing key are not taken and the leaf written has
strictly increasing keys. -/
theorem C19_unique_sorted_keys_preserved (E : Env K V W C) (cfg : config K) (key : K)
    (tx_id : Nat) (iop : insert_operation K V) (fuel : Nat) (w : W) :
    (∀ leafp : leaf_node K V, strictly_sorted leafp.array_ →
      (∀ op : insert_operation K V, op.has_conflicts leafp = false →
        strictly_sorted (op.apply_array leafp.array_) ∧
        op.apply_array leafp.array_
          = vector_insert leafp.array_ (lower_bound leafp.array_ op.key) (op.key, op.value) ∧
        (op.apply_array leafp.array_).Perm ((op.key, op.value) :: leafp.array_) ∧
        (∀ e, leafp.array_[lower_bound leafp.array_ op.key]? = some e → e.1 ≠ op.key)) ∧
      (∀ op : delete_operation K, op.has_conflicts leafp = false →
        ∃ b, op.apply_array leafp.array_ = some b ∧ strictly_sorted b)) ∧
    (∀ (pre post : List (Event K V)) (lptr : logical_pointer) (pptr : physical_pointer)
        (ver newv : Nat) (ec : error),
      (exec_leaf_operation E (insert_operation.ops cfg) cfg key tx_id iop fuel w).trace
        = pre ++ Event.update lptr pptr ver newv ec :: post →
      ∃ pre0 e n opx data ln op1,
        pre = pre0 ++ [e, Event.has_conflicts n.as_leaf false, Event.get_next_ptr pptr,
          Event.insert pptr data] ∧
        insert_operation.has_conflicts opx n.as_leaf = false ∧
        insert_operation.call cfg opx n n.as_leaf pptr = (data, ln, op1) ∧
        ln.array_ = opx.apply_array n.as_leaf.array_ ∧
        (strictly_sorted n.as_leaf.array_ →
          strictly_sorted ln.array_ ∧
          ∀ x, n.as_leaf.array_[lower_bound n.as_leaf.array_ opx.key]? = some x →
            x.1 ≠ opx.key)) := by
  constructor
  · intro leafp hss
    exact apply_array_of_no_conflict leafp hss
  · intro pre post lptr pptr ver newv ec h
    obtain ⟨pre0, e, n, opx, data, ln, op1, hp, _, _, _, hcf, hcl, _, _, _⟩ :=
      exec_update_context E (insert_operation.ops cfg) cfg key tx_id iop fuel w pre post lptr
        pptr ver newv ec h
    have hcall : insert_operation.call cfg opx n n.as_leaf pptr = (data, ln, op1) :=
      Option.some.inj hcl
    have harr : ln.array_ = opx.apply_array n.as_leaf.array_ := by
      have := insert_call_array cfg opx n n.as_leaf pptr
      rw [hcall] at this
      exact this
    refine ⟨pre0, e, n, opx, data, ln, op1, hp, hcf, hcall, harr, ?_⟩
    intro hss
    obtain ⟨h1, _, _, h4⟩ := (apply_array_of_no_conflict n.as_leaf hss).1 opx hcf
    exact ⟨by rw [harr]; exact h1, h4⟩

/-- Witness of C19: inserting `(3, 30)` into the leaf `[(1, 10), (5, 50)]`. -/
theorem C19_unique_sorted_keys_witness :
    strictly_sorted (demo_leaf [(1, 10), (5, 50)] []).array_ ∧
    (insert_operation.mk0 3 30).has_conflicts (demo_leaf [(1, 10), (5, 50)] []) = false ∧
    strictly_sorted
      ((insert_operation.mk0 3 30).apply_array (demo_leaf [(1, 10), (5, 50)] []).array_) :=
  ⟨by decide, by decide,
    (((C19_unique_sorted_keys_preserved demo_env demo_cfg 3 1 (insert_operation.mk0 3 30) 5
      (demo_start (demo_leaf [(1, 10), (5, 50)] []) [])).1
      (demo_leaf [(1, 10), (5, 50)] []) (by decide)).1
      (insert_operation.mk0 3 30) (by decide)).1⟩

end unique_key_claims

/-! ## What a call that returns false leaves behind -/

section false_return_lemmas

variable {K V W C O : Type}

theorem retry_trace_no_add_entry (key : K) (nptr : node_pointer K V) (pptr : physical_pointer)
    (data : payload K V) (newv : Nat) (ec : error) (leaf1 : node_pointer K V)
    (nnp : node_pointer K V) (t : Nat) (acc : Bool) :
    Event.add_entry nnp t acc ∉ retry_trace key nptr pptr data newv ec leaf1 := by
  by_cases h : ec = error.object_doesnt_exist <;> simp [retry_trace, h]

theorem chain_trace_no_add_entry (key : K) (nnp : node_pointer K V) (t : Nat) (acc : Bool) :
    ∀ (chain : List (failed_attempt K V)) (nptr : node_pointer K V),
      Event.add_entry nnp t acc ∉ chain_trace key nptr chain := by
  intro chain
  induction chain with
  | nil =>
    intro nptr hm
    cases hm
  | cons a rest ih =>
    intro nptr hm
    simp only [chain_trace, List.mem_append] at hm
    rcases hm with hm | hm
    · exact retry_trace_no_add_entry _ _ _ _ _ _ _ _ _ _ hm
    · exact ih a.next hm

/-- A run of the loop whose only call is a `has_conflicts` that returned true leaves the
world untouched. -/
theorem exec_loop_conflict_world (E : Env K V W C) (I : Operation K V O) (key : K)
    (tx_id : Nat) (ctx : C) (fuel : Nat) (leaf : node_pointer K V) (op : O) (w : W)
    (leafp : leaf_node K V)
    (h : (exec_loop E I key tx_id ctx fuel leaf op w).trace
      = [Event.has_conflicts leafp true]) :
    (exec_loop E I key tx_id ctx fuel leaf op w).world = w := by
  cases fuel with
  | zero => simp [exec_loop] at h
  | succ n =>
    rcases attempt_cases E I key tx_id ctx leaf op w with
      ⟨hc, ha⟩ | ⟨hc, ⟨pptr, w1, hcall, ha⟩ | ⟨pptr, data, ln, op1, newv, acc, w1, hcall, ha⟩ |
        ⟨pptr, data, ln, op1, newv, ec, leaf1, w1, hcall, hec, ha⟩ |
        ⟨pptr, data, ln, op1, newv, code, w1, hcall, ha⟩⟩
    · rw [exec_loop_done E I key tx_id ctx n leaf op w _ _ _ ha]
    · rw [exec_loop_done E I key tx_id ctx n leaf op w _ _ _ ha] at h
      simp at h
    · rw [exec_loop_done E I key tx_id ctx n leaf op w _ _ _ ha] at h
      simp [success_trace] at h
    · rw [exec_loop_retry E I key tx_id ctx n leaf op w _ _ _ _ ha] at h
      simp [retry_trace] at h
    · rw [exec_loop_done E I key tx_id ctx n leaf op w _ _ _ ha] at h
      simp at h

end false_return_lemmas

section false_return_claims

variable {K V W C O : Type} [LinearOrder K]

/-- A call whose only calls are the search and a `has_conflicts` that returned true leaves
the world as the search left it. -/
theorem exec_conflict_world (E : Env K V W C) (I : Operation K V O) (cfg : config K) (key : K)
    (tx_id : Nat) (op : O) (fuel : Nat) (w : W) (nptr : node_pointer K V)
    (leafp : leaf_node K V)
    (h : (exec_leaf_operation E I cfg key tx_id op fuel w).trace
      = [Event.lower_node_bound key tx_id nptr, Event.has_conflicts leafp true]) :
    (exec_leaf_operation E I cfg key tx_id op fuel w).world
      = (E.lower_node_bound key tx_id w).2 := by
  cases fuel with
  | zero => simp [exec_leaf_operation] at h
  | succ n =>
    by_cases h1 : E.serialized_size (E.lower_node_bound key tx_id w).1.1.as_leaf
        ≥ cfg.MAX_NODE_SIZE
    · rw [exec_split E I cfg key tx_id op n w h1] at h
      simp at h
    · by_cases h2 : E.serialized_size (E.lower_node_bound key tx_id w).1.1.as_leaf
          < cfg.MIN_NODE_SIZE ∧ ¬ is_boundary cfg (E.lower_node_bound key tx_id w).1.1.as_leaf
      · rw [exec_merge E I cfg key tx_id op n w h1 h2.1 h2.2] at h
        simp at h
      · rw [exec_in_bounds E I cfg key tx_id op n w h1 h2] at h ⊢
        simp only [List.cons.injEq] at h
        exact exec_loop_conflict_world E I key tx_id _ n _ op _ leafp h.2

/-- C1 (as the code has it): for every call of `exec_leaf_operation` that returns, the
result is true exactly when the last `ptr_table.update` of the call reported no error, and
false exactly when the call ends with `has_conflicts` returning true on the leaf of the node
pointer resolved last.  When it returns false, no `ptr_table.update` of the call reported
success, every pointer the call wrote to the node table it also removed, and nothing was
offered to the cache; the calls of split, merge and `cache.invalidate` made before the
conflict was found stay in the trace, with whatever they did to the world.  When the call
consists of the search and the conflict check only, the world is as the search left it. -/
theorem C1_result_reflects_update_and_conflict (E : Env K V W C) (I : Operation K V O)
    (cfg : config K) (key : K) (tx_id : Nat) (op : O) (fuel : Nat) (w : W) (b : Bool)
    (h : (exec_leaf_operation E I cfg key tx_id op fuel w).outcome = Outcome.returned b) :
    (b = true ↔
      (update_results (exec_leaf_operation E I cfg key tx_id op fuel w).trace).getLast?
        = some error.ok) ∧
    (b = false ↔
      ∃ pre e nptr, (exec_leaf_operation E I cfg key tx_id op fuel w).trace
          = pre ++ [e, Event.has_conflicts nptr.as_leaf true] ∧ e.resolved = some nptr) ∧
    (b = false →
      (∀ ec ∈ update_results (exec_leaf_operation E I cfg key tx_id op fuel w).trace,
        ec ≠ error.ok) ∧
      inserted_ptrs (exec_leaf_operation E I cfg key tx_id op fuel w).trace
        = removed_ptrs (exec_leaf_operation E I cfg key tx_id op fuel w).trace ∧
      (∀ nnp t acc, Event.add_entry nnp t acc
        ∉ (exec_leaf_operation E I cfg key tx_id op fuel w).trace)) ∧
    (∀ nptr leafp,
      (exec_leaf_operation E I cfg key tx_id op fuel w).trace
        = [Event.lower_node_bound key tx_id nptr, Event.has_conflicts leafp true] →
      (exec_leaf_operation E I cfg key tx_id op fuel w).world
        = (E.lower_node_bound key tx_id w).2) := by
  obtain ⟨h1, h2, h3⟩ := result_reflects_update_and_conflict E I cfg key tx_id op fuel w b h
  refine ⟨h1, h2, ?_, fun nptr leafp ht => exec_conflict_world E I cfg key tx_id op fuel w nptr
    leafp ht⟩
  intro hb
  refine ⟨(h3 hb).1, (h3 hb).2, ?_⟩
  intro nnp t acc hm
  obtain ⟨restarts, hr, hcase⟩ := exec_chain E I cfg key tx_id op fuel w
  rcases hcase with ⟨ho, _⟩ | ⟨nptr, chain, op0, tail, ht, _, _, hfin⟩
  · rw [h] at ho
    cases ho
  · rw [h, hb] at hfin
    rw [ht, hfin.2] at hm
    simp only [List.mem_append, List.mem_cons, reduceCtorEq, List.mem_singleton, false_or,
      or_false] at hm
    rcases hm with hm | hm
    · have := hr _ hm
      cases this
    · rcases hm with hm | hm
      · exact chain_trace_no_add_entry key nnp t acc chain nptr hm
      · cases hm

/-- C1 fails as stated: a delete of the absent key `3` on a leaf of four entries
(`MAX_NODE_SIZE = 4`) returns false after a split that changed the world; and a delete of
key `3` whose update is answered `object_doesnt_exist`, after which the re-resolved leaf no
longer holds the key, returns false after `cache.invalidate` and after a speculative pointer
was allocated, written and removed. -/
theorem C1_false_return_after_split_or_invalidate :
    (demo_delete (demo_leaf [(1, 10), (2, 20), (4, 40), (5, 50)] []) []).outcome
      = Outcome.returned false ∧
    Event.split (demo_start (demo_leaf [(1, 10), (2, 20), (4, 40), (5, 50)] []) []).leaf
      ∈ (demo_delete (demo_leaf [(1, 10), (2, 20), (4, 40), (5, 50)] []) []).trace ∧
    (demo_delete (demo_leaf [(1, 10), (2, 20), (4, 40), (5, 50)] []) []).world
      ≠ demo_start (demo_leaf [(1, 10), (2, 20), (4, 40), (5, 50)] []) [] ∧
    (demo_delete_grown (demo_leaf [(1, 10), (3, 30)] [])
        [(0, error.object_doesnt_exist)]).outcome = Outcome.returned false ∧
    Event.invalidate 7
      ∈ (demo_delete_grown (demo_leaf [(1, 10), (3, 30)] [])
          [(0, error.object_doesnt_exist)]).trace ∧
    inserted_ptrs (demo_delete_grown (demo_leaf [(1, 10), (3, 30)] [])
        [(0, error.object_doesnt_exist)]).trace = [200] ∧
    (demo_delete_grown (demo_leaf [(1, 10), (3, 30)] [])
        [(0, error.object_doesnt_exist)]).world
      ≠ demo_start (demo_leaf [(1, 10), (3, 30)] []) [(0, error.object_doesnt_exist)] := by
  decide

/-- Witness of C1: the delete of key `3` whose update is answered `object_doesnt_exist` and
whose re-resolved leaf no longer holds the key returns false; no update of it succeeded and
the pointer `200` it wrote it also removed. -/
theorem C1_result_witness :
    (demo_delete_grown (demo_leaf [(1, 10), (3, 30)] [])
        [(0, error.object_doesnt_exist)]).outcome = Outcome.returned false ∧
    (∀ ec ∈ update_results (demo_delete_grown (demo_leaf [(1, 10), (3, 30)] [])
        [(0, error.object_doesnt_exist)]).trace, ec ≠ error.ok) ∧
    inserted_ptrs (demo_delete_grown (demo_leaf [(1, 10), (3, 30)] [])
        [(0, error.object_doesnt_exist)]).trace
      = removed_ptrs (demo_delete_grown (demo_leaf [(1, 10), (3, 30)] [])
          [(0, error.object_doesnt_exist)]).trace :=
  ⟨by decide,
    ((C1_result_reflects_update_and_conflict demo_env_grown (delete_operation.ops demo_cfg)
      demo_cfg 3 1 (delete_operation.mk0 3) 5
      (demo_start (demo_leaf [(1, 10), (3, 30)] []) [(0, error.object_doesnt_exist)]) false
      (by decide)).2.2.1 rfl).1,
    ((C1_result_reflects_update_and_conflict demo_env_grown (delete_operation.ops demo_cfg)
      demo_cfg 3 1 (delete_operation.mk0 3) 5
      (demo_start (demo_leaf [(1, 10), (3, 30)] []) [(0, error.object_doesnt_exist)]) false
      (by decide)).2.2.1 rfl).2.1⟩

end false_return_claims

end bdtree
